import Mathlib

/-!
# Verification of the Exchron classroom ML pipeline

Shallow embedding of the core ML pipeline of the `exchron-dashboard`
repository: the CSV parser and type inferencer, the math utilities,
the data preprocessor (`DataPreprocessor`), the logistic-regression
model, the evaluation metrics, and the training orchestrator
(`Trainer`).  JavaScript numbers are modelled as rationals (`ℚ`);
host functions that are irrational or nondeterministic
(`Math.sqrt`, `Math.random`-based shuffles, `Date` parsing,
float-to-string printing) are threaded through as explicit parameters
so every definition stays executable.
-/

set_option allowUnsafeReducibility true in
attribute [semireducible] Rat.add Rat.mul Rat.inv Rat.div Rat.sub Rat.neg

namespace Exchron

/-- JS `Math.round`: rounds to the nearest integer, halves toward
positive infinity (`Math.round(0.5) = 1`, `Math.round(-0.5) = -0`). -/
def jsRound (q : ℚ) : ℤ := ⌊q + 1/2⌋

/-- First-occurrence deduplication, the iteration order of a JS `Set`
or `Map` built by inserting elements in list order
(`Array.from(new Set(values))`). -/
def firstDedup {α : Type} [DecidableEq α] (l : List α) : List α :=
  l.foldl (fun acc v => if v ∈ acc then acc else acc ++ [v]) []

end Exchron

namespace Exchron.Evaluation

/-- `Array(classes).fill(0).map(() => Array(classes).fill(0))`:
the zero-initialised `classes × classes` confusion matrix. -/
def zeroMatrix (classes : ℕ) : List (List ℕ) :=
  List.replicate classes (List.replicate classes 0)

/-- `matrix[actual][pred]++`. -/
def bumpCell (m : List (List ℕ)) (actual pred : ℕ) : List (List ℕ) :=
  m.set actual ((m.getD actual []).set pred ((m.getD actual []).getD pred 0 + 1))

/-- One iteration of the `calculateConfusionMatrix` loop over samples:
the increment is guarded by `pred < classes && actual < classes`.
Predictions are rounded (`Math.round`), labels are class indices. -/
def cmStep (classes : ℕ) (m : List (List ℕ)) (pl : ℚ × ℕ) : List (List ℕ) :=
  if jsRound pl.1 < (classes : ℤ) ∧ pl.2 < classes then
    bumpCell m pl.2 (jsRound pl.1).toNat
  else m

/-- `calculateConfusionMatrix(predictions, labels, numClasses)` with an
explicit class count (rows = actual, columns = predicted).  Faithful for
nonnegative predictions; a negative rounded prediction would write to a
negative array property in JS, outside the matrix cells. -/
def calculateConfusionMatrix (predictions : List ℚ) (labels : List ℕ)
    (classes : ℕ) : List (List ℕ) :=
  (predictions.zip labels).foldl (cmStep classes) (zeroMatrix classes)

/-- The class count `calculateConfusionMatrix` computes when `numClasses`
is omitted: `Math.max(...labels, ...predictions) + 1`. -/
def jsMax (l : List ℚ) : ℚ := l.foldl max (l.headD 0)

/-- `calculateAccuracy(predictions, labels)`:
`correct / predictions.length` where a sample is correct when
`Math.round(predictions[i]) === labels[i]`. -/
def calculateAccuracy (predictions : List ℚ) (labels : List ℕ) : ℚ :=
  (((predictions.zip labels).countP
      (fun pl => decide (jsRound pl.1 = (pl.2 : ℤ)))) : ℚ) / (predictions.length : ℚ)

/-- `m[a][b]` with the out-of-range default `0` (all in-range uses match JS). -/
def cell (m : List (List ℕ)) (a b : ℕ) : ℕ := (m.getD a []).getD b 0

/-- Sum of all cells of a matrix (`rows.reduce` of `row.reduce`). -/
def totalCells (m : List (List ℕ)) : ℕ := (m.map List.sum).sum

/-- Sum of the diagonal cells of a matrix. -/
def diagSum (m : List (List ℕ)) : ℕ :=
  ((List.range m.length).map (fun i => cell m i i)).sum

/-- `calculatePrecisionRecallF1(confusionMatrix, classIndex)`:
precision = TP/(TP+FP), recall = TP/(TP+FN), F1 = harmonic mean, each
guarded to `0` when its denominator is `0`; returns all zeros when the
matrix has fewer than two rows. -/
def prfParts (tp fp fn : ℚ) : ℚ × ℚ × ℚ :=
  let precisionV : ℚ := if 0 < tp + fp then tp / (tp + fp) else 0
  let recallV : ℚ := if 0 < tp + fn then tp / (tp + fn) else 0
  let f1V : ℚ := if 0 < precisionV + recallV then
      2 * (precisionV * recallV) / (precisionV + recallV) else 0
  (precisionV, recallV, f1V)

def calculatePrecisionRecallF1 (cm : List (List ℕ)) (classIndex : ℕ) :
    ℚ × ℚ × ℚ :=
  if cm.length < 2 then (0, 0, 0) else
  let tp : ℚ := ((cm.getD classIndex []).getD classIndex 0 : ℕ)
  let fp : ℚ := ((((List.range cm.length).filter (fun i => i ≠ classIndex)).map
      (fun i => (cm.getD i []).getD classIndex 0)).sum : ℕ)
  let fn : ℚ := ((((List.range (cm.getD classIndex []).length).filter
      (fun j => j ≠ classIndex)).map
      (fun j => (cm.getD classIndex []).getD j 0)).sum : ℕ)
  prfParts tp fp fn

/-- The metric argument of `findOptimalThreshold` (`'f1' | 'youden'`). -/
inductive ThresholdMetric
  | f1
  | youden
deriving DecidableEq

/-- The 100 scanned thresholds
`Array.from({ length: 100 }, (_, i) => i / 100)`. -/
def thresholdList : List ℚ := (List.range 100).map (fun i => (i : ℚ) / 100)

/-- The binary predictions at a threshold: `p >= threshold ? 1 : 0`. -/
def predictionsAt (probabilities : List ℚ) (t : ℚ) : List ℚ :=
  probabilities.map (fun p => if t ≤ p then (1 : ℚ) else 0)

/-- The F1 score `findOptimalThreshold` computes at one threshold:
confusion matrix with 2 classes, F1 of class 1. -/
def f1ScoreAt (probabilities : List ℚ) (labels : List ℕ) (t : ℚ) : ℚ :=
  (calculatePrecisionRecallF1
    (calculateConfusionMatrix (predictionsAt probabilities t) labels 2) 1).2.2

/-- The Youden-J score `findOptimalThreshold` computes at one
threshold: recall of class 1 plus recall of class 0 (specificity)
minus 1. -/
def youdenScoreAt (probabilities : List ℚ) (labels : List ℕ) (t : ℚ) : ℚ :=
  let cm := calculateConfusionMatrix (predictionsAt probabilities t) labels 2
  (calculatePrecisionRecallF1 cm 1).2.1 + (calculatePrecisionRecallF1 cm 0).2.1 - 1

/-- The score `findOptimalThreshold` computes at one threshold for the
chosen metric. -/
def thresholdScore (probabilities : List ℚ) (labels : List ℕ) :
    ThresholdMetric → ℚ → ℚ
  | .f1 => f1ScoreAt probabilities labels
  | .youden => youdenScoreAt probabilities labels

/-- `findOptimalThreshold(probabilities, labels, metric)`: scans
`thresholdList` keeping the first strict improvement over
`bestThreshold = 0.5`, `bestScore = 0`; returns
`{ threshold, score }`. -/
def findOptimalThreshold (probabilities : List ℚ) (labels : List ℕ)
    (metric : ThresholdMetric) : ℚ × ℚ :=
  thresholdList.foldl
    (fun best t =>
      let score := thresholdScore probabilities labels metric t
      if best.2 < score then (t, score) else best)
    (1/2, 0)

/-- The scanning fold of `findOptimalThreshold`, abstracted over the
score function. -/
def bestFold (score : ℚ → ℚ) (ts : List ℚ) (init : ℚ × ℚ) : ℚ × ℚ :=
  ts.foldl (fun best t => if best.2 < score t then (t, score t) else best) init

lemma findOptimalThreshold_eq_bestFold (probs : List ℚ) (labels : List ℕ)
    (metric : ThresholdMetric) :
    findOptimalThreshold probs labels metric
      = bestFold (thresholdScore probs labels metric) thresholdList (1/2, 0) := rfl

lemma bestFold_snd_mono (score : ℚ → ℚ) :
    ∀ (ts : List ℚ) (init : ℚ × ℚ), init.2 ≤ (bestFold score ts init).2 := by
  intro ts
  induction ts with
  | nil => intro init; exact le_refl _
  | cons t ts ih =>
    intro init
    by_cases h : init.2 < score t
    · calc init.2 ≤ score t := le_of_lt h
        _ = ((t, score t) : ℚ × ℚ).2 := rfl
        _ ≤ _ := by
          have := ih (t, score t)
          simpa [bestFold, h] using this
    · have := ih init
      simpa [bestFold, h] using this

lemma bestFold_stable (score : ℚ → ℚ) :
    ∀ (ts : List ℚ) (init : ℚ × ℚ),
      (bestFold score ts init).2 = init.2 → bestFold score ts init = init := by
  intro ts
  induction ts with
  | nil => intro init _; rfl
  | cons t ts ih =>
    intro init heq
    by_cases h : init.2 < score t
    · exfalso
      have h1 : ((t, score t) : ℚ × ℚ).2 ≤ (bestFold score ts (t, score t)).2 :=
        bestFold_snd_mono score ts (t, score t)
      have h2 : bestFold score (t :: ts) init = bestFold score ts (t, score t) := by
        simp [bestFold, h]
      rw [h2] at heq
      rw [heq] at h1
      exact absurd (lt_of_lt_of_le h h1) (lt_irrefl _)
    · have h2 : bestFold score (t :: ts) init = bestFold score ts init := by
        simp [bestFold, h]
      rw [h2] at heq ⊢
      exact ih init heq

lemma le_bestFold_snd_of_mem (score : ℚ → ℚ) :
    ∀ (ts : List ℚ) (init : ℚ × ℚ) (t : ℚ), t ∈ ts →
      score t ≤ (bestFold score ts init).2 := by
  intro ts
  induction ts with
  | nil => intro init t h; cases h
  | cons u us ih =>
    intro init t ht
    rcases List.mem_cons.mp ht with rfl | hmem
    · by_cases h : init.2 < score t
      · have h1 : ((t, score t) : ℚ × ℚ).2 ≤ (bestFold score us (t, score t)).2 :=
          bestFold_snd_mono score us (t, score t)
        have h2 : bestFold score (t :: us) init = bestFold score us (t, score t) := by
          simp [bestFold, h]
        rw [h2]; exact h1
      · have h2 : bestFold score (t :: us) init = bestFold score us init := by
          simp [bestFold, h]
        rw [h2]
        exact le_trans (le_of_not_lt h) (bestFold_snd_mono score us init)
    · by_cases h : init.2 < score u
      · have h2 : bestFold score (u :: us) init = bestFold score us (u, score u) := by
          simp [bestFold, h]
        rw [h2]; exact ih (u, score u) t hmem
      · have h2 : bestFold score (u :: us) init = bestFold score us init := by
          simp [bestFold, h]
        rw [h2]; exact ih init t hmem

/-- When the fold strictly improves on its initial score, the returned
threshold is the first one attaining the final best score. -/
lemma bestFold_find (score : ℚ → ℚ) :
    ∀ (ts : List ℚ) (init : ℚ × ℚ),
      init.2 < (bestFold score ts init).2 →
      ts.find? (fun t => decide (score t = (bestFold score ts init).2))
        = some (bestFold score ts init).1 := by
  intro ts
  induction ts with
  | nil => intro init h; exact absurd h (lt_irrefl _)
  | cons t ts ih =>
    intro init hlt
    by_cases h : init.2 < score t
    · have h2 : bestFold score (t :: ts) init = bestFold score ts (t, score t) := by
        simp [bestFold, h]
      rw [h2] at hlt ⊢
      by_cases h3 : (bestFold score ts (t, score t)).2 = score t
      · have hstable := bestFold_stable score ts (t, score t) h3
        rw [hstable]
        simp [List.find?_cons]
      · have h4 : score t < (bestFold score ts (t, score t)).2 :=
          lt_of_le_of_ne (bestFold_snd_mono score ts (t, score t)) (Ne.symm h3)
        have h5 : ¬(score t = (bestFold score ts (t, score t)).2) := ne_of_lt h4
        rw [List.find?_cons, decide_eq_false h5]
        exact ih (t, score t) h4
    · have h2 : bestFold score (t :: ts) init = bestFold score ts init := by
        simp [bestFold, h]
      rw [h2] at hlt ⊢
      have h5 : ¬(score t = (bestFold score ts init).2) := by
        intro heq
        have : score t ≤ init.2 := le_of_not_lt h
        rw [heq] at this
        exact absurd (lt_of_lt_of_le hlt this) (lt_irrefl _)
      rw [List.find?_cons, decide_eq_false h5]
      exact ih init hlt

lemma guardedRatio_nonneg {a b : ℚ} (ha : 0 ≤ a) :
    0 ≤ if 0 < a + b then a / (a + b) else 0 := by
  split
  · exact div_nonneg ha (le_of_lt (by assumption))
  · exact le_refl 0

lemma guardedF1_nonneg {p r : ℚ} (hp : 0 ≤ p) (hr : 0 ≤ r) :
    0 ≤ if 0 < p + r then 2 * (p * r) / (p + r) else 0 := by
  split
  · exact div_nonneg (by positivity) (le_of_lt (by assumption))
  · exact le_refl 0

lemma prfParts_nonneg (tp fp fn : ℚ) (htp : 0 ≤ tp) :
    0 ≤ (prfParts tp fp fn).1 ∧ 0 ≤ (prfParts tp fp fn).2.1 ∧
    0 ≤ (prfParts tp fp fn).2.2 := by
  unfold prfParts
  dsimp only
  exact ⟨guardedRatio_nonneg htp, guardedRatio_nonneg htp,
    guardedF1_nonneg (guardedRatio_nonneg htp) (guardedRatio_nonneg htp)⟩

lemma precisionRecallF1_nonneg (cm : List (List ℕ)) (i : ℕ) :
    0 ≤ (calculatePrecisionRecallF1 cm i).1 ∧
    0 ≤ (calculatePrecisionRecallF1 cm i).2.1 ∧
    0 ≤ (calculatePrecisionRecallF1 cm i).2.2 := by
  unfold calculatePrecisionRecallF1
  by_cases h : cm.length < 2
  · simp [h]
  · simp only [h, if_false]
    exact prfParts_nonneg _ _ _ (by positivity)

lemma f1ScoreAt_nonneg (probs : List ℚ) (labels : List ℕ) (t : ℚ) :
    0 ≤ f1ScoreAt probs labels t :=
  (precisionRecallF1_nonneg _ 1).2.2

set_option maxRecDepth 10000 in
lemma half_mem_thresholdList : (1/2 : ℚ) ∈ thresholdList := by decide

lemma thresholdScore_f1 (probs : List ℚ) (labels : List ℕ) :
    thresholdScore probs labels .f1 = f1ScoreAt probs labels := rfl

/-- C4 (amended): `findOptimalThreshold` scans exactly the 100 thresholds
`i/100`, `i = 0..99`; the returned threshold's F1 equals the returned
score and is at least the F1 at threshold `0.5`; when the best score is
positive the first threshold attaining it is returned; when no threshold
attains a positive F1 the default `0.5` is returned. -/
theorem findOptimalThreshold_spec (probs : List ℚ) (labels : List ℕ) :
    thresholdList = (List.range 100).map (fun i => (i : ℚ) / 100) ∧
    f1ScoreAt probs labels (findOptimalThreshold probs labels .f1).1
      = (findOptimalThreshold probs labels .f1).2 ∧
    f1ScoreAt probs labels (1/2)
      ≤ f1ScoreAt probs labels (findOptimalThreshold probs labels .f1).1 ∧
    (0 < (findOptimalThreshold probs labels .f1).2 →
      thresholdList.find? (fun t => decide (f1ScoreAt probs labels t
          = (findOptimalThreshold probs labels .f1).2))
        = some (findOptimalThreshold probs labels .f1).1) ∧
    ((findOptimalThreshold probs labels .f1).2 = 0 →
      (findOptimalThreshold probs labels .f1).1 = 1/2) := by
  have hre : findOptimalThreshold probs labels .f1
      = bestFold (f1ScoreAt probs labels) thresholdList (1/2, 0) := by
    rw [findOptimalThreshold_eq_bestFold, thresholdScore_f1]
  set F := f1ScoreAt probs labels with hF
  set B := bestFold F thresholdList (1/2, 0) with hB
  have hmono : (0 : ℚ) ≤ B.2 := bestFold_snd_mono F thresholdList (1/2, 0)
  have hhalf : F (1/2) ≤ B.2 :=
    le_bestFold_snd_of_mem F thresholdList (1/2, 0) (1/2) half_mem_thresholdList
  have hstab : B.2 = 0 → B = (1/2, 0) := fun h => bestFold_stable F thresholdList (1/2, 0) h
  have hattains : F B.1 = B.2 := by
    by_cases h : 0 < B.2
    · have hfind := bestFold_find F thresholdList (1/2, 0) h
      have := List.find?_some hfind
      exact of_decide_eq_true this
    · have h0 : B.2 = 0 := le_antisymm (le_of_not_lt h) hmono
      have hBid := hstab h0
      rw [hBid]
      have hle : F (1/2) ≤ (0 : ℚ) := by rw [← h0]; exact hhalf
      exact le_antisymm hle (f1ScoreAt_nonneg probs labels (1/2))
  refine ⟨rfl, ?_, ?_, ?_, ?_⟩
  · rw [hre]; exact hattains
  · rw [hre, hattains]; exact hhalf
  · intro hpos
    rw [hre] at hpos ⊢
    exact bestFold_find F thresholdList (1/2, 0) hpos
  · intro h0
    rw [hre] at h0 ⊢
    rw [hstab h0]

set_option maxRecDepth 100000 in
/-- C4 (counterexample to the tie rule as stated): on probabilities
`[1/2]` with labels `[0]` every scanned threshold has F1 score `0`, so
the first threshold attaining the best score is `0`, yet
`findOptimalThreshold` returns the default `0.5`. -/
theorem findOptimalThreshold_tie_counterexample :
    findOptimalThreshold [1/2] [0] .f1 = (1/2, 0) ∧
    thresholdList.find? (fun t => decide (f1ScoreAt [1/2] [0] t = 0)) = some 0 ∧
    ((1 : ℚ)/2 ≠ 0) :=
  ⟨by decide, by decide, by norm_num⟩

set_option maxRecDepth 100000 in
lemma findOptimalThreshold_eval_pos : findOptimalThreshold [3/4] [1] .f1 = (0, 1) := by
  decide

set_option maxRecDepth 100000 in
lemma findOptimalThreshold_eval_zero : findOptimalThreshold [1/2] [0] .f1 = (1/2, 0) := by
  decide

/-- Witness for `findOptimalThreshold_spec`: on `[3/4]`, `[1]` the best
score is positive and the first attaining threshold (`0`) is returned;
on `[1/2]`, `[0]` the best score is `0` and the default `0.5` is
returned. -/
theorem findOptimalThreshold_spec_witness :
    (thresholdList.find? (fun t => decide (f1ScoreAt [3/4] [1] t
        = (findOptimalThreshold [3/4] [1] .f1).2))
      = some (findOptimalThreshold [3/4] [1] .f1).1) ∧
    (findOptimalThreshold [1/2] [0] .f1).1 = 1/2 :=
  ⟨(findOptimalThreshold_spec [3/4] [1]).2.2.2.1
      (lt_of_lt_of_eq (by norm_num : (0:ℚ) < ((0, 1) : ℚ × ℚ).2)
        (congrArg Prod.snd findOptimalThreshold_eval_pos.symm)),
   (findOptimalThreshold_spec [1/2] [0]).2.2.2.2
      (congrArg Prod.snd findOptimalThreshold_eval_zero)⟩

lemma getD_set_self {α : Type} (l : List α) (i : ℕ) (a d : α) (h : i < l.length) :
    (l.set i a).getD i d = a := by
  rw [List.getD_eq_getElem?_getD, List.getElem?_set_self h]
  rfl

lemma getD_set_ne {α : Type} (l : List α) (i j : ℕ) (a d : α) (h : i ≠ j) :
    (l.set i a).getD j d = l.getD j d := by
  rw [List.getD_eq_getElem?_getD, List.getElem?_set_ne h, ← List.getD_eq_getElem?_getD]

/-- Shape invariant of a `classes × classes` confusion matrix. -/
def MatShape (m : List (List ℕ)) (c : ℕ) : Prop :=
  m.length = c ∧ ∀ r ∈ m, r.length = c

lemma zeroMatrix_shape (c : ℕ) : MatShape (zeroMatrix c) c := by
  constructor
  · simp [zeroMatrix]
  · intro r hr
    rw [List.eq_of_mem_replicate hr]
    simp

lemma getD_mem_of_lt {α : Type} (l : List α) (i : ℕ) (d : α) (h : i < l.length) :
    l.getD i d ∈ l := by
  rw [List.getD_eq_getElem?_getD, List.getElem?_eq_getElem h]
  exact List.getElem_mem h

lemma bumpCell_shape {m : List (List ℕ)} {c : ℕ} (hsh : MatShape m c)
    {a : ℕ} (ha : a < c) (p : ℕ) :
    MatShape (bumpCell m a p) c := by
  obtain ⟨hlen, hrow⟩ := hsh
  have ham : a < m.length := by omega
  constructor
  · rw [bumpCell, List.length_set]; exact hlen
  · intro r hr
    rcases List.mem_or_eq_of_mem_set hr with hmem | rfl
    · exact hrow r hmem
    · rw [List.length_set]
      exact hrow _ (getD_mem_of_lt m a [] ham)

lemma cmStep_shape {m : List (List ℕ)} {c : ℕ} (hsh : MatShape m c) (pl : ℚ × ℕ) :
    MatShape (cmStep c m pl) c := by
  unfold cmStep
  split
  next hg => exact bumpCell_shape hsh hg.2 _
  next => exact hsh

lemma foldl_cmStep_shape {c : ℕ} (pairs : List (ℚ × ℕ)) :
    ∀ m, MatShape m c → MatShape (pairs.foldl (cmStep c) m) c := by
  induction pairs with
  | nil => intro m h; exact h
  | cons pl pairs ih =>
    intro m h
    rw [List.foldl_cons]
    exact ih _ (cmStep_shape h pl)

lemma confusionMatrix_shape (preds : List ℚ) (labels : List ℕ) (c : ℕ) :
    MatShape (calculateConfusionMatrix preds labels c) c :=
  foldl_cmStep_shape _ _ (zeroMatrix_shape c)

lemma cell_zeroMatrix (c a b : ℕ) : cell (zeroMatrix c) a b = 0 := by
  unfold cell zeroMatrix
  by_cases ha : a < c
  · have houter : (List.replicate c (List.replicate c (0:ℕ))).getD a [] = List.replicate c 0 := by
      rw [List.getD_eq_getElem?_getD, List.getElem?_replicate, if_pos ha]
      rfl
    rw [houter]
    by_cases hb : b < c
    · rw [List.getD_eq_getElem?_getD, List.getElem?_replicate, if_pos hb]
      rfl
    · exact List.getD_eq_default _ _ (by simpa using le_of_not_lt hb)
  · have h0 : (List.replicate c (List.replicate c (0:ℕ))).getD a [] = [] :=
      List.getD_eq_default _ _ (by simpa using le_of_not_lt ha)
    rw [h0]
    rfl

lemma cell_bumpCell {m : List (List ℕ)} {c : ℕ} (hsh : MatShape m c)
    {a' p' : ℕ} (ha' : a' < c) (hp' : p' < c) (a p : ℕ) :
    cell (bumpCell m a' p') a p
      = cell m a p + (if a = a' ∧ p = p' then 1 else 0) := by
  obtain ⟨hlen, hrow⟩ := hsh
  have ham : a' < m.length := by omega
  have hrl : (m.getD a' []).length = c := hrow _ (getD_mem_of_lt m a' [] ham)
  unfold cell bumpCell
  by_cases ha : a = a'
  · subst ha
    rw [getD_set_self _ _ _ _ ham]
    by_cases hp : p = p'
    · subst hp
      rw [getD_set_self _ _ _ _ (by omega)]
      simp
    · rw [getD_set_ne _ _ _ _ _ (fun h => hp h.symm)]
      simp [hp]
  · rw [getD_set_ne _ _ _ _ _ (fun h => ha h.symm)]
    simp [ha]

/-- The guard of the confusion-matrix increment:
`pred < classes && actual < classes`. -/
def cmGuard (c : ℕ) (pl : ℚ × ℕ) : Bool :=
  decide (jsRound pl.1 < (c : ℤ)) && decide (pl.2 < c)

/-- The samples contributing to cell `(a, b)` of the confusion matrix. -/
def cmHit (c a b : ℕ) (pl : ℚ × ℕ) : Bool :=
  (cmGuard c pl && decide (pl.2 = a)) && decide ((jsRound pl.1).toNat = b)

lemma cell_foldl_cmStep {c : ℕ} (pairs : List (ℚ × ℕ)) :
    ∀ m, MatShape m c → ∀ a b, a < c → b < c →
      cell (pairs.foldl (cmStep c) m) a b
        = cell m a b + pairs.countP (cmHit c a b) := by
  induction pairs with
  | nil => intro m _ a b _ _; simp
  | cons pl pairs ih =>
    intro m hsh a b ha hb
    rw [List.foldl_cons, ih _ (cmStep_shape hsh pl) a b ha hb, List.countP_cons]
    have hcomm : cell m a b + (pairs.countP (cmHit c a b)
        + if cmHit c a b pl = true then 1 else 0)
        = (cell m a b + if cmHit c a b pl = true then 1 else 0)
          + pairs.countP (cmHit c a b) := by ring
    rw [hcomm]
    congr 1
    unfold cmStep
    by_cases hg : jsRound pl.1 < (c : ℤ) ∧ pl.2 < c
    · rw [if_pos hg]
      have htn : (jsRound pl.1).toNat < c := by omega
      rw [cell_bumpCell hsh hg.2 htn a b]
      congr 1
      have hguard : cmGuard c pl = true := by
        unfold cmGuard
        simp [hg.1, hg.2]
      by_cases hc1 : a = pl.2 ∧ b = (jsRound pl.1).toNat
      · rw [if_pos hc1]
        have : cmHit c a b pl = true := by
          unfold cmHit
          simp [hguard, hc1.1.symm, hc1.2.symm]
        rw [if_pos this]
      · rw [if_neg hc1]
        have : ¬(cmHit c a b pl = true) := by
          unfold cmHit
          simp only [Bool.and_eq_true, decide_eq_true_eq]
          rintro ⟨⟨_, h1⟩, h2⟩
          exact hc1 ⟨h1.symm, h2.symm⟩
        rw [if_neg this]
    · rw [if_neg hg]
      have : ¬(cmHit c a b pl = true) := by
        unfold cmHit cmGuard
        simp only [Bool.and_eq_true, decide_eq_true_eq]
        rintro ⟨⟨⟨h1, h2⟩, _⟩, _⟩
        exact hg ⟨h1, h2⟩
      rw [if_neg this]
      simp

lemma cell_confusionMatrix {preds : List ℚ} {labels : List ℕ} {c a b : ℕ}
    (ha : a < c) (hb : b < c) :
    cell (calculateConfusionMatrix preds labels c) a b
      = (preds.zip labels).countP (cmHit c a b) := by
  unfold calculateConfusionMatrix
  rw [cell_foldl_cmStep _ _ (zeroMatrix_shape c) a b ha hb, cell_zeroMatrix]
  ring

lemma sum_map_range {M : Type} [AddCommMonoid M] (f : ℕ → M) (c : ℕ) :
    ((List.range c).map f).sum = ∑ i ∈ Finset.range c, f i := by
  induction c with
  | zero => simp
  | succ n ih => rw [List.range_succ, List.map_append, List.sum_append,
      Finset.sum_range_succ, ih]; simp

lemma sum_eq_sum_getD (l : List ℕ) :
    l.sum = ∑ i ∈ Finset.range l.length, l.getD i 0 := by
  induction l with
  | nil => simp
  | cons a l ih =>
    rw [List.sum_cons, List.length_cons, Finset.sum_range_succ', ih]
    simp only [List.getD_cons_succ, List.getD_cons_zero]
    ring

lemma getD_map_of_lt {α β : Type} (l : List α) (f : α → β) (i : ℕ) (d : β) (d' : α)
    (h : i < l.length) : (l.map f).getD i d = f (l.getD i d') := by
  rw [List.getD_eq_getElem?_getD, List.getElem?_map, List.getElem?_eq_getElem h,
    List.getD_eq_getElem?_getD, List.getElem?_eq_getElem h]
  rfl

lemma totalCells_eq_sum_cells {m : List (List ℕ)} {c : ℕ} (hsh : MatShape m c) :
    totalCells m = ∑ a ∈ Finset.range c, ∑ b ∈ Finset.range c, cell m a b := by
  obtain ⟨hlen, hrow⟩ := hsh
  unfold totalCells
  rw [sum_eq_sum_getD, List.length_map, hlen]
  apply Finset.sum_congr rfl
  intro a ha
  have ha' : a < m.length := by rw [hlen]; exact Finset.mem_range.mp ha
  rw [getD_map_of_lt m List.sum a 0 [] ha']
  have hr : (m.getD a []).length = c := hrow _ (getD_mem_of_lt m a [] ha')
  rw [sum_eq_sum_getD, hr]
  rfl

lemma diagSum_eq_sum_cells {m : List (List ℕ)} {c : ℕ} (hsh : MatShape m c) :
    diagSum m = ∑ i ∈ Finset.range c, cell m i i := by
  unfold diagSum
  rw [sum_map_range, hsh.1]

lemma sum_countP_fiber {α : Type} (l : List α) (P : α → Bool) (f : α → ℕ) (c : ℕ)
    (hf : ∀ x, P x = true → f x < c) :
    ∑ a ∈ Finset.range c, l.countP (fun x => P x && decide (f x = a))
      = l.countP P := by
  induction l with
  | nil => simp
  | cons x l ih =>
    simp only [List.countP_cons]
    rw [Finset.sum_add_distrib, ih]
    congr 1
    by_cases hx : P x = true
    · simp only [hx, Bool.true_and]
      have : ∀ a ∈ Finset.range c,
          (if (decide (f x = a)) = true then 1 else 0)
            = if f x = a then 1 else 0 := by
        intro a _
        simp
      rw [Finset.sum_congr rfl this, Finset.sum_ite_eq (Finset.range c) (f x) (fun _ => 1),
        if_pos (Finset.mem_range.mpr (hf x hx))]
      simp [hx]
    · simp only [Bool.not_eq_true] at hx
      simp [hx]

lemma sum_countP_diag {α : Type} (l : List α) (P : α → Bool) (f g : α → ℕ) (c : ℕ)
    (hf : ∀ x, P x = true → f x < c) :
    ∑ a ∈ Finset.range c, l.countP (fun x => (P x && decide (f x = a)) && decide (g x = a))
      = l.countP (fun x => P x && decide (f x = g x)) := by
  induction l with
  | nil => simp
  | cons x l ih =>
    simp only [List.countP_cons]
    rw [Finset.sum_add_distrib, ih]
    congr 1
    by_cases hx : P x = true
    · by_cases hfg : f x = g x
      · have hcong : ∀ a ∈ Finset.range c,
            (if ((P x && decide (f x = a)) && decide (g x = a)) = true then 1 else 0)
              = if f x = a then (1:ℕ) else 0 := by
          intro a _
          by_cases hfa : f x = a
          · simp [hx, hfa, hfg ▸ hfa]
          · simp [hfa]
        rw [Finset.sum_congr rfl hcong,
          Finset.sum_ite_eq (Finset.range c) (f x) (fun _ => 1),
          if_pos (Finset.mem_range.mpr (hf x hx))]
        simp [hx, hfg]
      · have hcong : ∀ a ∈ Finset.range c,
            (if ((P x && decide (f x = a)) && decide (g x = a)) = true then 1 else 0)
              = (0:ℕ) := by
          intro a _
          by_cases hfa : f x = a
          · have : ¬(g x = a) := fun h => hfg (hfa.trans h.symm)
            simp [this]
          · simp [hfa]
        rw [Finset.sum_eq_zero hcong]
        simp [hfg]
    · simp only [Bool.not_eq_true] at hx
      simp [hx]

lemma totalCells_confusionMatrix (preds : List ℚ) (labels : List ℕ) (c : ℕ) :
    totalCells (calculateConfusionMatrix preds labels c)
      = (preds.zip labels).countP (cmGuard c) := by
  rw [totalCells_eq_sum_cells (confusionMatrix_shape preds labels c)]
  have hinner : ∀ a ∈ Finset.range c,
      ∑ b ∈ Finset.range c, cell (calculateConfusionMatrix preds labels c) a b
        = (preds.zip labels).countP (fun pl => cmGuard c pl && decide (pl.2 = a)) := by
    intro a ha
    have : ∀ b ∈ Finset.range c,
        cell (calculateConfusionMatrix preds labels c) a b
          = (preds.zip labels).countP (cmHit c a b) := by
      intro b hb
      exact cell_confusionMatrix (Finset.mem_range.mp ha) (Finset.mem_range.mp hb)
    rw [Finset.sum_congr rfl this]
    exact sum_countP_fiber _ _ _ c (fun pl hpl => by
      unfold cmGuard at hpl
      simp only [Bool.and_eq_true, decide_eq_true_eq] at hpl
      omega)
  rw [Finset.sum_congr rfl hinner]
  exact sum_countP_fiber _ _ _ c (fun pl hpl => by
    unfold cmGuard at hpl
    simp only [Bool.and_eq_true, decide_eq_true_eq] at hpl
    omega)

lemma diagSum_confusionMatrix (preds : List ℚ) (labels : List ℕ) (c : ℕ) :
    diagSum (calculateConfusionMatrix preds labels c)
      = (preds.zip labels).countP
          (fun pl => cmGuard c pl && decide (pl.2 = (jsRound pl.1).toNat)) := by
  rw [diagSum_eq_sum_cells (confusionMatrix_shape preds labels c)]
  have hcells : ∀ i ∈ Finset.range c,
      cell (calculateConfusionMatrix preds labels c) i i
        = (preds.zip labels).countP (cmHit c i i) := by
    intro i hi
    exact cell_confusionMatrix (Finset.mem_range.mp hi) (Finset.mem_range.mp hi)
  rw [Finset.sum_congr rfl hcells]
  exact sum_countP_diag _ _ _ _ c (fun pl hpl => by
    unfold cmGuard at hpl
    simp only [Bool.and_eq_true, decide_eq_true_eq] at hpl
    omega)

lemma foldl_max_init_le (l : List ℚ) : ∀ b : ℚ, b ≤ l.foldl max b := by
  induction l with
  | nil => intro b; exact le_refl b
  | cons a l ih =>
    intro b
    rw [List.foldl_cons]
    exact le_trans (le_max_left b a) (ih (max b a))

lemma le_foldl_max_of_mem {l : List ℚ} {x : ℚ} (h : x ∈ l) :
    ∀ b : ℚ, x ≤ l.foldl max b := by
  induction l with
  | nil => cases h
  | cons a l ih =>
    intro b
    rw [List.foldl_cons]
    rcases List.mem_cons.mp h with rfl | hmem
    · exact le_trans (le_max_right b x) (foldl_max_init_le l (max b x))
    · exact ih hmem (max b a)

lemma le_jsMax {l : List ℚ} {x : ℚ} (h : x ∈ l) : x ≤ jsMax l :=
  le_foldl_max_of_mem h _

/-- C10: the sum of all cells of `calculateConfusionMatrix` counts
exactly the samples whose rounded prediction and whose label are both
strictly below the class count — samples outside those bounds are
silently omitted, and with an explicit `numClasses` smaller than an
observed value the total is strictly below the sample count (shown at
predictions `[2]`, labels `[0]`, `numClasses = 1`).  (Nonnegativity of
the predictions marks the domain on which the embedding is faithful: a
negative rounded prediction writes to a negative array property in JS,
also outside the matrix cells.) -/
theorem confusionMatrix_totalCells_spec (preds : List ℚ) (labels : List ℕ)
    (numClasses : ℕ) (hlen : preds.length = labels.length)
    (hnn : ∀ p ∈ preds, 0 ≤ p) :
    (totalCells (calculateConfusionMatrix preds labels numClasses)
      = (preds.zip labels).countP
          (fun pl => decide (jsRound pl.1 < (numClasses : ℤ) ∧ pl.2 < numClasses))) ∧
    (totalCells (calculateConfusionMatrix [2] [0] 1) = 0 ∧
      (0 : ℕ) < ([(2 : ℚ)]).length) := by
  constructor
  · rw [totalCells_confusionMatrix]
    apply List.countP_congr
    intro pl _
    unfold cmGuard
    simp
  · constructor
    · decide
    · decide

/-- Witness for `confusionMatrix_totalCells_spec` at predictions `[2]`,
labels `[0]`, `numClasses = 1`: the total is `0`, strictly below the
one sample. -/
theorem confusionMatrix_totalCells_spec_witness :
    totalCells (calculateConfusionMatrix [2] [0] 1)
      = (([(2 : ℚ)]).zip [0]).countP
          (fun pl => decide (jsRound pl.1 < ((1 : ℕ) : ℤ) ∧ pl.2 < 1)) :=
  (confusionMatrix_totalCells_spec [2] [0] 1 (by decide) (by
    intro p hp
    rcases List.mem_singleton.mp hp with rfl
    norm_num)).1

/-- C6: the accuracy computed directly from predictions equals
(sum of diagonal)/(sum of all cells) of the confusion matrix built from
the same predictions and labels, for any class count at least the
default `Math.max(...labels, ...predictions) + 1` (stated at exactly the
default, as the omitted-`numClasses` call computes it). -/
theorem calculateAccuracy_eq_confusionMatrix_ratio (preds : List ℚ)
    (labels : List ℕ) (c : ℕ)
    (hlen : preds.length = labels.length) (hn : 0 < preds.length)
    (hnn : ∀ p ∈ preds, 0 ≤ p)
    (hc : jsMax ((labels.map (fun x : ℕ => (x : ℚ))) ++ preds) + 1 = (c : ℚ)) :
    calculateAccuracy preds labels
      = (diagSum (calculateConfusionMatrix preds labels c) : ℚ)
        / (totalCells (calculateConfusionMatrix preds labels c) : ℚ) := by
  have hbound : ∀ pl ∈ preds.zip labels,
      jsRound pl.1 < (c : ℤ) ∧ pl.2 < c ∧ 0 ≤ jsRound pl.1 := by
    rintro ⟨p, l⟩ hmem
    obtain ⟨hp, hl⟩ := List.of_mem_zip hmem
    have hpmax : p ≤ jsMax ((labels.map (fun x : ℕ => (x : ℚ))) ++ preds) :=
      le_jsMax (List.mem_append_right _ hp)
    have hlm : (l : ℚ) ∈ labels.map (fun x : ℕ => (x : ℚ)) := by
      simp only [List.mem_map]
      exact ⟨l, hl, rfl⟩
    have hlmax : (l : ℚ) ≤ jsMax ((labels.map (fun x : ℕ => (x : ℚ))) ++ preds) :=
      le_jsMax (List.mem_append_left _ hlm)
    refine ⟨?_, ?_, ?_⟩
    · have h1 : ((jsRound p : ℤ) : ℚ) ≤ p + 1/2 := Int.floor_le _
      have h2 : ((jsRound p : ℤ) : ℚ) < (c : ℚ) := by
        calc ((jsRound p : ℤ) : ℚ) ≤ p + 1/2 := h1
          _ < (c : ℚ) := by
            rw [← hc]
            have := hpmax
            linarith
      exact_mod_cast h2
    · have h2 : (l : ℚ) < (c : ℚ) := by
        rw [← hc]
        linarith
      exact_mod_cast h2
    · have hp0 : (0 : ℚ) ≤ p := hnn p hp
      exact Int.le_floor.mpr (by push_cast; linarith)
  unfold calculateAccuracy
  rw [totalCells_confusionMatrix, diagSum_confusionMatrix]
  have hdiag : (preds.zip labels).countP
      (fun pl => cmGuard c pl && decide (pl.2 = (jsRound pl.1).toNat))
      = (preds.zip labels).countP (fun pl => decide (jsRound pl.1 = (pl.2 : ℤ))) := by
    apply List.countP_congr
    intro pl hpl
    obtain ⟨h1, h2, h3⟩ := hbound pl hpl
    have hguard : cmGuard c pl = true := by
      unfold cmGuard
      simp [h1, h2]
    simp only [hguard, Bool.true_and, decide_eq_true_eq]
    constructor
    · intro hEq
      rw [hEq]
      exact (Int.toNat_of_nonneg h3).symm
    · intro hEq
      have := congrArg Int.toNat hEq
      simpa [Int.toNat_of_nonneg h3] using this.symm
  have htot : (preds.zip labels).countP (cmGuard c) = (preds.zip labels).length :=
    List.countP_eq_length.mpr (fun pl hpl => by
      obtain ⟨h1, h2, _⟩ := hbound pl hpl
      unfold cmGuard
      simp [h1, h2])
  rw [hdiag, htot, List.length_zip, hlen, min_self]

/-- Witness for `calculateAccuracy_eq_confusionMatrix_ratio` at
predictions `[1, 0]`, labels `[1, 1]`, class count `2`. -/
theorem calculateAccuracy_eq_confusionMatrix_ratio_witness :
    calculateAccuracy [1, 0] [1, 1]
      = (diagSum (calculateConfusionMatrix [1, 0] [1, 1] 2) : ℚ)
        / (totalCells (calculateConfusionMatrix [1, 0] [1, 1] 2) : ℚ) :=
  calculateAccuracy_eq_confusionMatrix_ratio [1, 0] [1, 1] 2 (by decide) (by decide)
    (by decide) (by norm_num [jsMax, List.foldl])

end Exchron.Evaluation

namespace Exchron.MathUtils

open Exchron

/-- `zScoreNormalize(values)`: z-score normalization with population
variance; a zero standard deviation yields a constant-`0` column and a
reported std of `1`.  `Math.sqrt` is irrational, so the host square
root is passed in as `sqrtQ`. -/
def zScoreNormalize (sqrtQ : ℚ → ℚ) (values : List ℚ) : List ℚ × ℚ × ℚ :=
  let mean := values.sum / (values.length : ℚ)
  let variance := (values.map (fun x => (x - mean) ^ 2)).sum / (values.length : ℚ)
  let std := sqrtQ variance
  if std = 0 then (values.map (fun _ => 0), mean, 1)
  else (values.map (fun x => (x - mean) / std), mean, std)

/-- The indices of class `c`, in increasing order — the bucket
`classBuckets[label]` that `stratifiedSplit` builds by pushing indices
in array order. -/
def classBucket (labels : List ℚ) (c : ℚ) : List ℕ :=
  (List.range labels.length).filter (fun i => decide (labels.getD i 0 = c))

/-- The per-class slice of `stratifiedSplit`: shuffle the bucket, then
`slice(0, trainCount)` / `slice(trainCount)` with
`trainCount = Math.floor(bucket.length * trainRatio)`. -/
def classSlices (labels : List ℚ) (trainRatio : ℚ) (shuffle : ℕ → List ℕ)
    (c : ℚ) : List ℕ × List ℕ :=
  let bucket := classBucket labels c
  let idxs := (shuffle bucket.length).map (fun i => bucket.getD i 0)
  let trainCount := (⌊(bucket.length : ℚ) * trainRatio⌋).toNat
  (idxs.take trainCount, idxs.drop trainCount)

/-- `stratifiedSplit(labels, trainRatio)`.  `shuffleIndices` is
`Math.random`-based, so the resulting permutations are passed in as
`shuffle`.  Classes are enumerated in first-appearance order (JS
enumerates integer-like object keys in ascending numeric order; the
properties proved below are invariant under the enumeration order). -/
def stratifiedSplit (labels : List ℚ) (trainRatio : ℚ)
    (shuffle : ℕ → List ℕ) : List ℕ × List ℕ :=
  let classes := firstDedup labels
  ((classes.map (fun c => (classSlices labels trainRatio shuffle c).1)).flatten,
   (classes.map (fun c => (classSlices labels trainRatio shuffle c).2)).flatten)

lemma foldl_dedup_mem {α : Type} [DecidableEq α] :
    ∀ (l : List α) (acc : List α) (x : α),
      x ∈ l.foldl (fun acc v => if v ∈ acc then acc else acc ++ [v]) acc
        ↔ x ∈ acc ∨ x ∈ l := by
  intro l
  induction l with
  | nil => intro acc x; simp
  | cons v l ih =>
    intro acc x
    rw [List.foldl_cons]
    by_cases hv : v ∈ acc
    · rw [if_pos hv, ih]
      constructor
      · rintro (h | h)
        · exact Or.inl h
        · exact Or.inr (List.mem_cons_of_mem v h)
      · rintro (h | h)
        · exact Or.inl h
        · rcases List.mem_cons.mp h with rfl | h
          · exact Or.inl hv
          · exact Or.inr h
    · rw [if_neg hv, ih]
      constructor
      · rintro (h | h)
        · rcases List.mem_append.mp h with h | h
          · exact Or.inl h
          · exact Or.inr (List.mem_cons.mpr (Or.inl (List.mem_singleton.mp h)))
        · exact Or.inr (List.mem_cons_of_mem v h)
      · rintro (h | h)
        · exact Or.inl (List.mem_append.mpr (Or.inl h))
        · rcases List.mem_cons.mp h with rfl | h
          · exact Or.inl (List.mem_append.mpr (Or.inr (List.mem_singleton.mpr rfl)))
          · exact Or.inr h

lemma mem_firstDedup {α : Type} [DecidableEq α] (l : List α) (x : α) :
    x ∈ firstDedup l ↔ x ∈ l := by
  unfold firstDedup
  rw [foldl_dedup_mem]
  simp

lemma foldl_dedup_nodup {α : Type} [DecidableEq α] :
    ∀ (l : List α) (acc : List α), acc.Nodup →
      (l.foldl (fun acc v => if v ∈ acc then acc else acc ++ [v]) acc).Nodup := by
  intro l
  induction l with
  | nil => intro acc h; exact h
  | cons v l ih =>
    intro acc hacc
    rw [List.foldl_cons]
    by_cases hv : v ∈ acc
    · rw [if_pos hv]; exact ih acc hacc
    · rw [if_neg hv]
      refine ih _ ?_
      rw [List.nodup_append]
      exact ⟨hacc, List.nodup_singleton v,
        fun a ha hb => hv (by rwa [List.mem_singleton.mp hb] at ha)⟩

lemma firstDedup_nodup {α : Type} [DecidableEq α] (l : List α) :
    (firstDedup l).Nodup :=
  foldl_dedup_nodup l [] List.nodup_nil

lemma map_getD_range : ∀ (l : List ℕ),
    (List.range l.length).map (fun i => l.getD i 0) = l := by
  intro l
  induction l with
  | nil => simp
  | cons a l ih =>
    rw [List.length_cons, List.range_succ_eq_map, List.map_cons, List.map_map]
    have htail : List.map ((fun i => (a :: l).getD i 0) ∘ Nat.succ) (List.range l.length)
        = l := by
      have hfun : ((fun i => (a :: l).getD i 0) ∘ Nat.succ) = (fun i => l.getD i 0) := by
        funext i
        rfl
      rw [hfun]
      exact ih
    rw [htail]
    rfl

/-- The shuffled bucket is a permutation of the bucket. -/
lemma classSlices_perm (labels : List ℚ) (r : ℚ) (shuffle : ℕ → List ℕ)
    (hshuf : ∀ m, (shuffle m).Perm (List.range m)) (c : ℚ) :
    ((classSlices labels r shuffle c).1 ++ (classSlices labels r shuffle c).2).Perm
      (classBucket labels c) := by
  unfold classSlices
  dsimp only
  rw [List.take_append_drop]
  have h1 := (hshuf (classBucket labels c).length).map
      (fun i => (classBucket labels c).getD i 0)
  rwa [map_getD_range] at h1

lemma mem_classBucket {labels : List ℚ} {c : ℚ} {i : ℕ} :
    i ∈ classBucket labels c ↔ i < labels.length ∧ labels.getD i 0 = c := by
  unfold classBucket
  rw [List.mem_filter, List.mem_range]
  simp

/-- Flattening the per-class buckets over a duplicate-free list of
classes covering every element yields a permutation of the index
range. -/
lemma flatten_classBucket_perm (labels : List ℚ) :
    ∀ (cs : List ℚ), cs.Nodup → (∀ i, i < labels.length → labels.getD i 0 ∈ cs) →
      ((cs.map (fun c => classBucket labels c)).flatten).Perm
        (List.range labels.length) := by
  suffices h : ∀ (cs : List ℚ) (is : List ℕ), cs.Nodup →
      (∀ i ∈ is, labels.getD i 0 ∈ cs) →
      ((cs.map (fun c => is.filter (fun i => decide (labels.getD i 0 = c)))).flatten).Perm
        is by
    intro cs hnd hcov
    exact h cs (List.range labels.length) hnd
      (fun i hi => hcov i (List.mem_range.mp hi))
  intro cs
  induction cs with
  | nil =>
    intro is _ hcov
    have : is = [] := List.eq_nil_iff_forall_not_mem.mpr
      (fun i hi => by simpa using hcov i hi)
    rw [this]
    simp
  | cons c cs ih =>
    intro is hnd hcov
    rw [List.map_cons, List.flatten_cons]
    have htail : ∀ c' ∈ cs,
        is.filter (fun i => decide (labels.getD i 0 = c'))
          = (is.filter (fun i => !(decide (labels.getD i 0 = c)))).filter
              (fun i => decide (labels.getD i 0 = c')) := by
      intro c' hc'
      have hne : c' ≠ c := fun h => (List.nodup_cons.mp hnd).1 (h ▸ hc')
      rw [List.filter_filter]
      apply List.filter_congr
      intro i _
      by_cases hic : labels.getD i 0 = c'
      · have hnc : ¬(labels.getD i 0 = c) := fun h => hne (hic.symm.trans h)
        rw [decide_eq_true hic, decide_eq_false hnc]
        rfl
      · rw [decide_eq_false hic]
        rfl
    have hmap : cs.map (fun c' => is.filter (fun i => decide (labels.getD i 0 = c')))
        = cs.map (fun c' => (is.filter (fun i => !(decide (labels.getD i 0 = c)))).filter
            (fun i => decide (labels.getD i 0 = c'))) :=
      List.map_congr_left htail
    rw [hmap]
    have hrest : ((cs.map (fun c' =>
        (is.filter (fun i => !(decide (labels.getD i 0 = c)))).filter
          (fun i => decide (labels.getD i 0 = c')))).flatten).Perm
        (is.filter (fun i => !(decide (labels.getD i 0 = c)))) := by
      apply ih _ (List.nodup_cons.mp hnd).2
      intro i hi
      obtain ⟨hmem, hcond⟩ := List.mem_filter.mp hi
      have hnc : ¬(labels.getD i 0 = c) := by
        intro h
        rw [decide_eq_true h] at hcond
        simp at hcond
      rcases List.mem_cons.mp (hcov i hmem) with h | h
      · exact absurd h hnc
      · exact h
    have hstep := List.Perm.append
      (List.Perm.refl (is.filter (fun i => decide (labels.getD i 0 = c)))) hrest
    exact hstep.trans (List.filter_append_perm _ is)

lemma flatten_pairs_perm : ∀ (l : List (List ℕ × List ℕ)),
    ((l.map Prod.fst).flatten ++ (l.map Prod.snd).flatten).Perm
      ((l.map (fun p => p.1 ++ p.2)).flatten) := by
  intro l
  induction l with
  | nil => simp
  | cons p l ih =>
    simp only [List.map_cons, List.flatten_cons]
    have h1 : (p.1 ++ (l.map Prod.fst).flatten) ++ (p.2 ++ (l.map Prod.snd).flatten)
        = p.1 ++ (((l.map Prod.fst).flatten ++ p.2) ++ (l.map Prod.snd).flatten) := by
      simp [List.append_assoc]
    rw [h1]
    have h2 : (((l.map Prod.fst).flatten ++ p.2) ++ (l.map Prod.snd).flatten).Perm
        (p.2 ++ ((l.map Prod.fst).flatten ++ (l.map Prod.snd).flatten)) := by
      have hc := List.Perm.append
        (@List.perm_append_comm _ ((l.map Prod.fst).flatten) p.2)
        (List.Perm.refl (l.map Prod.snd).flatten)
      exact hc.trans ((List.append_assoc p.2 _ _) ▸ List.Perm.refl _)
    have h3 := h2.trans (List.Perm.append_left p.2 ih)
    have h4 := List.Perm.append_left p.1 h3
    exact h4.trans ((List.append_assoc p.1 p.2 _).symm ▸ List.Perm.refl _)

lemma flatten_map_perm (cs : List ℚ) (f g : ℚ → List ℕ)
    (h : ∀ c ∈ cs, (f c).Perm (g c)) :
    ((cs.map f).flatten).Perm ((cs.map g).flatten) := by
  induction cs with
  | nil => simp
  | cons c cs ih =>
    simp only [List.map_cons, List.flatten_cons]
    exact List.Perm.append (h c (List.mem_cons_self c cs))
      (ih (fun c' hc' => h c' (List.mem_cons_of_mem _ hc')))

lemma countP_flatten_classes (v : ℕ → ℚ) :
    ∀ (cs : List ℚ), cs.Nodup → ∀ (g : ℚ → List ℕ),
      (∀ c' ∈ cs, ∀ x ∈ g c', v x = c') →
      ∀ c ∈ cs,
        ((cs.map g).flatten).countP (fun i => decide (v i = c)) = (g c).length := by
  intro cs
  induction cs with
  | nil => intro _ g _ c hc; cases hc
  | cons c0 cs ih =>
    intro hnd g hg c hc
    rw [List.map_cons, List.flatten_cons, List.countP_append]
    rcases List.mem_cons.mp hc with rfl | hmem
    · have hhead : (g c).countP (fun i => decide (v i = c)) = (g c).length :=
        List.countP_eq_length.mpr
          (fun x hx => decide_eq_true (hg c (List.mem_cons_self _ _) x hx))
      have htail : ((cs.map g).flatten).countP (fun i => decide (v i = c)) = 0 :=
        List.countP_eq_zero.mpr (by
          intro x hx
          obtain ⟨lx, hlx, hxl⟩ := List.mem_flatten.mp hx
          obtain ⟨c', hc', rfl⟩ := List.mem_map.mp hlx
          have hvc' : v x = c' := hg c' (List.mem_cons_of_mem _ hc') x hxl
          have hne : c' ≠ c := fun h => (List.nodup_cons.mp hnd).1 (h ▸ hc')
          simp [hvc', hne])
      rw [hhead, htail]
      omega
    · have hhead : (g c0).countP (fun i => decide (v i = c)) = 0 :=
        List.countP_eq_zero.mpr (by
          intro x hx
          have hvc0 : v x = c0 := hg c0 (List.mem_cons_self _ _) x hx
          have hne : c0 ≠ c := fun h =>
            (List.nodup_cons.mp hnd).1 (by rw [h]; exact hmem)
          simp [hvc0, hne])
      rw [hhead, ih (List.nodup_cons.mp hnd).2 g
        (fun c' hc' x hx => hg c' (List.mem_cons_of_mem _ hc') x hx) c hmem]
      simp

lemma mem_shuffled_bucket {labels : List ℚ} {c : ℚ} {shuffle : ℕ → List ℕ}
    (hshuf : ∀ m, (shuffle m).Perm (List.range m)) {x : ℕ}
    (hx : x ∈ (shuffle (classBucket labels c).length).map
      (fun i => (classBucket labels c).getD i 0)) :
    x ∈ classBucket labels c := by
  obtain ⟨i, hi, rfl⟩ := List.mem_map.mp hx
  have hir : i ∈ List.range (classBucket labels c).length :=
    (hshuf _).mem_iff.mp hi
  exact Exchron.Evaluation.getD_mem_of_lt _ _ _ (List.mem_range.mp hir)

lemma classSlices_label {labels : List ℚ} {r c : ℚ} {shuffle : ℕ → List ℕ}
    (hshuf : ∀ m, (shuffle m).Perm (List.range m)) :
    (∀ x ∈ (classSlices labels r shuffle c).1, labels.getD x 0 = c) ∧
    (∀ x ∈ (classSlices labels r shuffle c).2, labels.getD x 0 = c) := by
  constructor
  · intro x hx
    exact (mem_classBucket.mp
      (mem_shuffled_bucket hshuf (List.mem_of_mem_take hx))).2
  · intro x hx
    exact (mem_classBucket.mp
      (mem_shuffled_bucket hshuf (List.mem_of_mem_drop hx))).2

lemma classSlices_lengths {labels : List ℚ} {r c : ℚ} {shuffle : ℕ → List ℕ}
    (hshuf : ∀ m, (shuffle m).Perm (List.range m)) (hr0 : 0 ≤ r) (hr1 : r ≤ 1) :
    (classSlices labels r shuffle c).1.length
        = (⌊((classBucket labels c).length : ℚ) * r⌋).toNat ∧
    (classSlices labels r shuffle c).2.length
        = (classBucket labels c).length
          - (⌊((classBucket labels c).length : ℚ) * r⌋).toNat := by
  have hidx : ((shuffle (classBucket labels c).length).map
      (fun i => (classBucket labels c).getD i 0)).length
      = (classBucket labels c).length := by
    rw [List.length_map, (hshuf _).length_eq, List.length_range]
  have htc : (⌊((classBucket labels c).length : ℚ) * r⌋).toNat
      ≤ (classBucket labels c).length := by
    have h1 : ((classBucket labels c).length : ℚ) * r
        ≤ ((classBucket labels c).length : ℚ) := by
      calc ((classBucket labels c).length : ℚ) * r
          ≤ ((classBucket labels c).length : ℚ) * 1 := by
            apply mul_le_mul_of_nonneg_left hr1
            positivity
        _ = ((classBucket labels c).length : ℚ) := mul_one _
    have h2 : ⌊((classBucket labels c).length : ℚ) * r⌋
        ≤ ((classBucket labels c).length : ℤ) := by
      calc ⌊((classBucket labels c).length : ℚ) * r⌋
          ≤ ⌊((classBucket labels c).length : ℚ)⌋ := Int.floor_le_floor h1
        _ = ((classBucket labels c).length : ℤ) := Int.floor_natCast _
    omega
  constructor
  · unfold classSlices
    dsimp only
    rw [List.length_take, hidx]
    omega
  · unfold classSlices
    dsimp only
    rw [List.length_drop, hidx]

/-- C3: `stratifiedSplit` splits every index set exactly: train and
validation indices are a permutation of `0..n-1` (hence pairwise
disjoint with full coverage), and within each class bucket of size `m`
exactly `⌊m · trainRatio⌋` indices go to the train set and the
remaining `m - ⌊m · trainRatio⌋` to the validation set.  The
`Math.random` shuffle is abstracted as any permutation-producing
function; the train ratio is a ratio, i.e. lies in `[0, 1]`. -/
theorem stratifiedSplit_spec (labels : List ℚ) (r : ℚ) (shuffle : ℕ → List ℕ)
    (hr0 : 0 ≤ r) (hr1 : r ≤ 1)
    (hshuf : ∀ m, (shuffle m).Perm (List.range m)) :
    ((stratifiedSplit labels r shuffle).1
        ++ (stratifiedSplit labels r shuffle).2).Perm (List.range labels.length) ∧
    (∀ i ∈ (stratifiedSplit labels r shuffle).1,
        i ∉ (stratifiedSplit labels r shuffle).2) ∧
    (∀ i, i < labels.length → i ∈ (stratifiedSplit labels r shuffle).1
        ∨ i ∈ (stratifiedSplit labels r shuffle).2) ∧
    (∀ c ∈ firstDedup labels,
      (stratifiedSplit labels r shuffle).1.countP
          (fun i => decide (labels.getD i 0 = c))
        = (⌊((classBucket labels c).length : ℚ) * r⌋).toNat ∧
      (stratifiedSplit labels r shuffle).2.countP
          (fun i => decide (labels.getD i 0 = c))
        = (classBucket labels c).length
          - (⌊((classBucket labels c).length : ℚ) * r⌋).toNat) := by
  have hcover : ∀ i, i < labels.length → labels.getD i 0 ∈ firstDedup labels := by
    intro i hi
    rw [mem_firstDedup]
    exact Exchron.Evaluation.getD_mem_of_lt _ _ _ hi
  have hfst : (firstDedup labels).map (fun c => (classSlices labels r shuffle c).1)
      = ((firstDedup labels).map (classSlices labels r shuffle)).map Prod.fst := by
    rw [List.map_map]
    rfl
  have hsnd : (firstDedup labels).map (fun c => (classSlices labels r shuffle c).2)
      = ((firstDedup labels).map (classSlices labels r shuffle)).map Prod.snd := by
    rw [List.map_map]
    rfl
  have hjoin : (((firstDedup labels).map
          (classSlices labels r shuffle)).map (fun p => p.1 ++ p.2)).flatten
      = ((firstDedup labels).map
          (fun c => (classSlices labels r shuffle c).1
            ++ (classSlices labels r shuffle c).2)).flatten := by
    rw [List.map_map]
    rfl
  have hperm : ((stratifiedSplit labels r shuffle).1
      ++ (stratifiedSplit labels r shuffle).2).Perm (List.range labels.length) := by
    unfold stratifiedSplit
    dsimp only
    rw [hfst, hsnd]
    refine (flatten_pairs_perm _).trans ?_
    rw [hjoin]
    refine (flatten_map_perm _ _ (fun c => classBucket labels c)
        (fun c _ => classSlices_perm labels r shuffle hshuf c)).trans ?_
    exact flatten_classBucket_perm labels (firstDedup labels)
      (firstDedup_nodup labels) hcover
  have hnodup : ((stratifiedSplit labels r shuffle).1
      ++ (stratifiedSplit labels r shuffle).2).Nodup :=
    hperm.nodup_iff.mpr (List.nodup_range _)
  refine ⟨hperm, ?_, ?_, ?_⟩
  · intro i hi
    exact fun hi2 => ((List.nodup_append.mp hnodup).2.2) hi hi2
  · intro i hi
    exact List.mem_append.mp (hperm.mem_iff.mpr (List.mem_range.mpr hi))
  · intro c hc
    have hg1 : ∀ c' ∈ firstDedup labels,
        ∀ x ∈ (classSlices labels r shuffle c').1, labels.getD x 0 = c' :=
      fun c' _ x hx => (classSlices_label hshuf).1 x hx
    have hg2 : ∀ c' ∈ firstDedup labels,
        ∀ x ∈ (classSlices labels r shuffle c').2, labels.getD x 0 = c' :=
      fun c' _ x hx => (classSlices_label hshuf).2 x hx
    constructor
    · show (((firstDedup labels).map
          (fun c => (classSlices labels r shuffle c).1)).flatten).countP _ = _
      rw [countP_flatten_classes (fun i => labels.getD i 0) (firstDedup labels)
        (firstDedup_nodup labels) _ hg1 c hc]
      exact (classSlices_lengths hshuf hr0 hr1).1
    · show (((firstDedup labels).map
          (fun c => (classSlices labels r shuffle c).2)).flatten).countP _ = _
      rw [countP_flatten_classes (fun i => labels.getD i 0) (firstDedup labels)
        (firstDedup_nodup labels) _ hg2 c hc]
      exact (classSlices_lengths hshuf hr0 hr1).2

/-- Witness for `stratifiedSplit_spec` at labels `[0, 1, 0, 1]`, train
ratio `1/2`, identity shuffle. -/
theorem stratifiedSplit_spec_witness :
    (((stratifiedSplit [0, 1, 0, 1] (1/2) (fun m => List.range m)).1
        ++ (stratifiedSplit [0, 1, 0, 1] (1/2) (fun m => List.range m)).2).Perm
      (List.range ([(0 : ℚ), 1, 0, 1]).length)) ∧
    (stratifiedSplit [0, 1, 0, 1] (1/2) (fun m => List.range m)).1.countP
        (fun i => decide (([(0 : ℚ), 1, 0, 1]).getD i 0 = 0))
      = (⌊((classBucket [0, 1, 0, 1] 0).length : ℚ) * (1/2)⌋).toNat :=
  ⟨(stratifiedSplit_spec [0, 1, 0, 1] (1/2) (fun m => List.range m)
      (by norm_num) (by norm_num) (fun m => List.Perm.refl _)).1,
   ((stratifiedSplit_spec [0, 1, 0, 1] (1/2) (fun m => List.range m)
      (by norm_num) (by norm_num) (fun m => List.Perm.refl _)).2.2.2 0
      (by decide)).1⟩

end Exchron.MathUtils

namespace Exchron

/-- The inferred column types (`ColumnType`). -/
inductive ColumnType
  | numeric
  | categorical
  | boolean
  | datetime
  | text
deriving DecidableEq

/-- `InferredColumnMeta`.  The numeric population-`std` field is
omitted: it needs `Math.sqrt`, and no consumer in the verified claims
reads it. -/
structure InferredColumnMeta where
  name : String
  index : ℕ
  inferredType : ColumnType
  missingCount : ℕ
  min : Option ℚ := none
  max : Option ℚ := none
  mean : Option ℚ := none
  uniqueValues : Option (List String) := none
deriving DecidableEq

/-- `RawDataset`. -/
structure RawDataset where
  name : String
  originalCSV : String
  header : List String
  rows : List (List String)
deriving DecidableEq

/-- `ParseStats`. -/
structure ParseStats where
  delimiter : Char
  inconsistentRowsDropped : ℕ
  totalRowsBefore : ℕ
  totalRowsAfter : ℕ
deriving DecidableEq

end Exchron

namespace Exchron.Logistic

/-- `LogisticRegressionConfig`. -/
structure LogisticRegressionConfig where
  learningRate : ℚ
  epochs : ℤ
  regularization : ℚ
  batchSize : ℤ
  earlyStoppingPatience : ℤ
  randomSeed : Option ℤ := none
deriving DecidableEq

/-- The mutable state of a `LogisticRegression` instance relevant to
inference and export (the per-epoch training history is read by
neither). -/
structure LogisticRegression where
  weights : List ℚ
  bias : ℚ
  config : LogisticRegressionConfig
  featureNames : List String

/-- `new LogisticRegression(numFeatures, config, featureNames)`:
weights are initialised to `(Math.random() - 0.5) * 0.1` (the host
randoms are passed in as `rand`), bias to `0`. -/
def construct (numFeatures : ℕ) (config : LogisticRegressionConfig)
    (featureNames : List String) (rand : ℕ → ℚ) : LogisticRegression :=
  { weights := (List.range numFeatures).map (fun i => (rand i - 1/2) * (1/10))
    bias := 0
    config := config
    featureNames := featureNames }

/-- `sigmoid(x)`: clips its input to `[-20, 20]` (saturating to exactly
`1` or `0` beyond); `Math.exp` is irrational, so the host `x ↦ e^(-x)`
is passed in as `expNeg`. -/
def sigmoid (expNeg : ℚ → ℚ) (x : ℚ) : ℚ :=
  if 20 < x then 1
  else if x < -20 then 0
  else 1 / (1 + expNeg x)

/-- `predictProbability(X, sampleIndex, numFeatures)` over the
flattened row-major feature matrix. -/
def predictProbability (expNeg : ℚ → ℚ) (m : LogisticRegression)
    (X : List ℚ) (sampleIndex numFeatures : ℕ) : ℚ :=
  sigmoid expNeg ((List.range numFeatures).foldl
    (fun logit j =>
      logit + m.weights.getD j 0 * X.getD (sampleIndex * numFeatures + j) 0)
    m.bias)

/-- `predict(X, numSamples, numFeatures)`. -/
def predict (expNeg : ℚ → ℚ) (m : LogisticRegression) (X : List ℚ)
    (numSamples numFeatures : ℕ) : List ℚ :=
  (List.range numSamples).map (fun i => predictProbability expNeg m X i numFeatures)

/-- `predictClasses(X, numSamples, numFeatures, threshold)`:
`probabilities[i] >= threshold ? 1 : 0`. -/
def predictClasses (expNeg : ℚ → ℚ) (m : LogisticRegression) (X : List ℚ)
    (numSamples numFeatures : ℕ) (threshold : ℚ) : List ℚ :=
  (predict expNeg m X numSamples numFeatures).map
    (fun p => if threshold ≤ p then (1 : ℚ) else 0)

/-- The record returned by `export()`. -/
structure ExportedModel where
  type : String
  weights : List ℚ
  bias : ℚ
  featureNames : List String
  config : LogisticRegressionConfig

/-- `export()`. -/
def exportModel (m : LogisticRegression) : ExportedModel :=
  { type := "logistic", weights := m.weights, bias := m.bias,
    featureNames := m.featureNames, config := m.config }

/-- `LogisticRegression.load(modelData)`: constructs a fresh model
(randomly initialised weights, zero bias) from `modelData.config` and
`modelData.featureNames`, then overwrites its weights and bias with the
exported ones. -/
def loadModel (data : ExportedModel) (rand : ℕ → ℚ) : LogisticRegression :=
  { construct data.weights.length data.config data.featureNames rand with
      weights := data.weights, bias := data.bias }

/-- C9: loading the result of `export()` yields a model whose weights,
bias, feature names and config are exactly the original's (the random
constructor initialisation is overwritten, no retraining happens), so
`predictProbability`, `predict` and `predictClasses` at any threshold
agree with the original model on every input. -/
theorem exportModel_loadModel_roundtrip (m : LogisticRegression) (rand : ℕ → ℚ)
    (expNeg : ℚ → ℚ) (X : List ℚ) (i numSamples numFeatures : ℕ) (threshold : ℚ) :
    (loadModel (exportModel m) rand).weights = m.weights ∧
    (loadModel (exportModel m) rand).bias = m.bias ∧
    (loadModel (exportModel m) rand).featureNames = m.featureNames ∧
    (loadModel (exportModel m) rand).config = m.config ∧
    predictProbability expNeg (loadModel (exportModel m) rand) X i numFeatures
      = predictProbability expNeg m X i numFeatures ∧
    predict expNeg (loadModel (exportModel m) rand) X numSamples numFeatures
      = predict expNeg m X numSamples numFeatures ∧
    predictClasses expNeg (loadModel (exportModel m) rand) X numSamples
        numFeatures threshold
      = predictClasses expNeg m X numSamples numFeatures threshold :=
  ⟨rfl, rfl, rfl, rfl, rfl, rfl, rfl⟩

end Exchron.Logistic

namespace Exchron.Encoding

/-- The per-column missing-value strategies (`'drop' | 'mean' | 'mode'`). -/
inductive Strategy
  | drop
  | mean
  | mode
deriving DecidableEq

/-- `PreprocessingConfig`.  The `missingValueStrategy` record is an
association list looked up by column name (absent columns default to
`'mean'`, as in `config.missingValueStrategy[columnName] || 'mean'`). -/
structure PreprocessingConfig where
  targetColumn : String
  selectedFeatures : List String
  normalization : Bool
  missingValueStrategy : List (String × Strategy)
  trainSplitRatio : ℚ
  validationSplitRatio : Option ℚ := none
  removeConstantFeatures : Bool := false
  removeHighMissingFeatures : Bool := false
  oneHotEncode : Bool := false
deriving DecidableEq

end Exchron.Encoding

namespace Exchron.Trainer

open Exchron Exchron.Logistic Exchron.Encoding

/-- `modelType` (`'logistic' | 'neuralnet'`). -/
inductive ModelType
  | logistic
  | neuralnet
deriving DecidableEq

/-- `TrainingConfig`. -/
structure TrainingConfig where
  modelType : ModelType
  preprocessing : PreprocessingConfig
  hyperparams : LogisticRegressionConfig

/-- The errors `Trainer.validateConfig` throws, one constructor per
`throw new Error(...)` site, carrying the data its message interpolates. -/
inductive TrainError
  | targetNotFound (name : String)
  | featureNotFound (name : String)
  | noFeatures
  | learningRateOutOfRange
  | epochsOutOfRange
deriving DecidableEq

/-- `Trainer.validateConfig(config, columnMeta)`: checks, in order,
that the target column exists, that every selected feature column
exists (failing on the first missing one), that at least one feature is
selected, that the learning rate lies in `(0, 1]`, and that the epoch
count lies in `[1, 10000]`; `none` means no exception. -/
def validateConfig (config : TrainingConfig)
    (columnMeta : List InferredColumnMeta) : Option TrainError :=
  if columnMeta.any
      (fun col => decide (col.name = config.preprocessing.targetColumn)) then
    match config.preprocessing.selectedFeatures.find?
        (fun f => !(columnMeta.any (fun col => decide (col.name = f)))) with
    | some f => some (.featureNotFound f)
    | none =>
      if config.preprocessing.selectedFeatures.length = 0 then
        some .noFeatures
      else if config.hyperparams.learningRate ≤ 0
          ∨ 1 < config.hyperparams.learningRate then
        some .learningRateOutOfRange
      else if config.hyperparams.epochs ≤ 0
          ∨ 10000 < config.hyperparams.epochs then
        some .epochsOutOfRange
      else none
  else some (.targetNotFound config.preprocessing.targetColumn)

/-- The orchestration prefix of `Trainer.trainModel`: the configuration
is validated before any other work; `DataPreprocessor.prepareDataset`
and everything after it (splitting, training, evaluation) are
abstracted as `prepare` and `go`, since the claim under check concerns
only the validate-before-preparing behaviour. -/
def trainModel {α β : Type} (config : TrainingConfig)
    (columnMeta : List InferredColumnMeta)
    (prepare : Unit → α) (go : α → Except TrainError β) : Except TrainError β :=
  match validateConfig config columnMeta with
  | some e => .error e
  | none => go (prepare ())

lemma validateConfig_none_iff (config : TrainingConfig)
    (columnMeta : List InferredColumnMeta) :
    validateConfig config columnMeta = none ↔
      ((∃ col ∈ columnMeta, col.name = config.preprocessing.targetColumn) ∧
       (∀ f ∈ config.preprocessing.selectedFeatures,
          ∃ col ∈ columnMeta, col.name = f) ∧
       config.preprocessing.selectedFeatures ≠ [] ∧
       (0 < config.hyperparams.learningRate
          ∧ config.hyperparams.learningRate ≤ 1) ∧
       (1 ≤ config.hyperparams.epochs
          ∧ config.hyperparams.epochs ≤ 10000)) := by
  unfold validateConfig
  by_cases ht : columnMeta.any
      (fun col => decide (col.name = config.preprocessing.targetColumn)) = true
  · rw [if_pos ht]
    have htex : ∃ col ∈ columnMeta, col.name = config.preprocessing.targetColumn := by
      simpa using ht
    cases hf : config.preprocessing.selectedFeatures.find?
        (fun f => !(columnMeta.any (fun col => decide (col.name = f)))) with
    | some f =>
      simp only []
      constructor
      · intro h
        exact absurd h (by simp)
      · rintro ⟨_, hall, _, _, _⟩
        exfalso
        have hp := List.find?_some hf
        have hmem := List.mem_of_find?_eq_some hf
        have hex := hall f hmem
        rw [Bool.not_eq_eq_eq_not, Bool.not_true, List.any_eq_false] at hp
        obtain ⟨col, hcol, hname⟩ := hex
        exact absurd (decide_eq_true hname) (by simpa using hp col hcol)
    | none =>
      have hall : ∀ f ∈ config.preprocessing.selectedFeatures,
          ∃ col ∈ columnMeta, col.name = f := by
        intro f hfm
        have hb : (columnMeta.any (fun col => decide (col.name = f))) = true := by
          have := List.find?_eq_none.mp hf f hfm
          simpa using this
        simpa using hb
      simp only []
      by_cases h0 : config.preprocessing.selectedFeatures.length = 0
      · rw [if_pos h0]
        constructor
        · intro h; exact absurd h (by simp)
        · rintro ⟨_, _, hne, _, _⟩
          exact absurd (List.length_eq_zero.mp h0) hne
      · rw [if_neg h0]
        by_cases hlr : config.hyperparams.learningRate ≤ 0
            ∨ 1 < config.hyperparams.learningRate
        · rw [if_pos hlr]
          constructor
          · intro h; exact absurd h (by simp)
          · rintro ⟨_, _, _, ⟨hlr0, hlr1⟩, _⟩
            rcases hlr with h | h
            · exact absurd hlr0 (not_lt.mpr h)
            · exact absurd hlr1 (not_le.mpr h)
        · rw [if_neg hlr]
          push_neg at hlr
          by_cases hep : config.hyperparams.epochs ≤ 0
              ∨ 10000 < config.hyperparams.epochs
          · rw [if_pos hep]
            constructor
            · intro h; exact absurd h (by simp)
            · rintro ⟨_, _, _, _, ⟨hep0, hep1⟩⟩
              rcases hep with h | h
              · omega
              · omega
          · rw [if_neg hep]
            push_neg at hep
            constructor
            · intro _
              refine ⟨htex, hall, fun hnil => h0 (by rw [hnil]; rfl),
                ⟨hlr.1, hlr.2⟩, ⟨by omega, by omega⟩⟩
            · intro _; rfl
  · rw [if_neg ht]
    constructor
    · intro h; exact absurd h (by simp)
    · rintro ⟨⟨col, hcol, hname⟩, _, _, _, _⟩
      exact absurd (by
        simp only [List.any_eq_true, decide_eq_true_eq]
        exact ⟨col, hcol, hname⟩) ht

/-- C7: `Trainer.trainModel` validates its configuration before any
preprocessing: validation succeeds exactly when the target column
exists, every selected feature exists, at least one feature is
selected, the learning rate is in `(0,1]` and the epoch count is in
`[1,10000]`; each violation yields its specific error; and when
validation fails, the result is that error regardless of the dataset
preparation — no preparation output is consulted. -/
theorem trainModel_validates_first {α β : Type} (config : TrainingConfig)
    (columnMeta : List InferredColumnMeta) :
    (validateConfig config columnMeta = none ↔
      ((∃ col ∈ columnMeta, col.name = config.preprocessing.targetColumn) ∧
       (∀ f ∈ config.preprocessing.selectedFeatures,
          ∃ col ∈ columnMeta, col.name = f) ∧
       config.preprocessing.selectedFeatures ≠ [] ∧
       (0 < config.hyperparams.learningRate
          ∧ config.hyperparams.learningRate ≤ 1) ∧
       (1 ≤ config.hyperparams.epochs
          ∧ config.hyperparams.epochs ≤ 10000))) ∧
    (∀ e, validateConfig config columnMeta = some e →
      ∀ (prepare₁ prepare₂ : Unit → α) (go₁ go₂ : α → Except TrainError β),
        trainModel config columnMeta prepare₁ go₁ = .error e ∧
        trainModel config columnMeta prepare₁ go₁
          = trainModel config columnMeta prepare₂ go₂) ∧
    ((¬ ∃ col ∈ columnMeta, col.name = config.preprocessing.targetColumn) →
      validateConfig config columnMeta
        = some (.targetNotFound config.preprocessing.targetColumn)) ∧
    ((∃ col ∈ columnMeta, col.name = config.preprocessing.targetColumn) →
      ∀ f, config.preprocessing.selectedFeatures.find?
          (fun f => !(columnMeta.any (fun col => decide (col.name = f)))) = some f →
        validateConfig config columnMeta = some (.featureNotFound f)) ∧
    ((∃ col ∈ columnMeta, col.name = config.preprocessing.targetColumn) →
      config.preprocessing.selectedFeatures = [] →
        validateConfig config columnMeta = some .noFeatures) ∧
    ((∃ col ∈ columnMeta, col.name = config.preprocessing.targetColumn) →
      (∀ f ∈ config.preprocessing.selectedFeatures,
          ∃ col ∈ columnMeta, col.name = f) →
      config.preprocessing.selectedFeatures ≠ [] →
      (config.hyperparams.learningRate ≤ 0 ∨ 1 < config.hyperparams.learningRate) →
        validateConfig config columnMeta = some .learningRateOutOfRange) ∧
    ((∃ col ∈ columnMeta, col.name = config.preprocessing.targetColumn) →
      (∀ f ∈ config.preprocessing.selectedFeatures,
          ∃ col ∈ columnMeta, col.name = f) →
      config.preprocessing.selectedFeatures ≠ [] →
      (0 < config.hyperparams.learningRate ∧ config.hyperparams.learningRate ≤ 1) →
      (config.hyperparams.epochs ≤ 0 ∨ 10000 < config.hyperparams.epochs) →
        validateConfig config columnMeta = some .epochsOutOfRange) := by
  have hmissing_none : ∀ (hall : ∀ f ∈ config.preprocessing.selectedFeatures,
      ∃ col ∈ columnMeta, col.name = f),
      config.preprocessing.selectedFeatures.find?
        (fun f => !(columnMeta.any (fun col => decide (col.name = f)))) = none := by
    intro hall
    apply List.find?_eq_none.mpr
    intro f hfm
    obtain ⟨col, hcol, hname⟩ := hall f hfm
    have hb : (columnMeta.any (fun col => decide (col.name = f))) = true := by
      simp only [List.any_eq_true, decide_eq_true_eq]
      exact ⟨col, hcol, hname⟩
    simp [hb]
  refine ⟨validateConfig_none_iff config columnMeta, ?_, ?_, ?_, ?_, ?_, ?_⟩
  · intro e he prepare₁ prepare₂ go₁ go₂
    constructor
    · unfold trainModel
      rw [he]
    · unfold trainModel
      rw [he]
  · intro hnot
    unfold validateConfig
    rw [if_neg (by simpa using hnot)]
  · rintro ⟨col, hcol, hname⟩ f hfind
    unfold validateConfig
    rw [if_pos (by
      simp only [List.any_eq_true, decide_eq_true_eq]
      exact ⟨col, hcol, hname⟩), hfind]
  · rintro ⟨col, hcol, hname⟩ hnil
    unfold validateConfig
    rw [if_pos (by
      simp only [List.any_eq_true, decide_eq_true_eq]
      exact ⟨col, hcol, hname⟩), hnil]
    rfl
  · rintro ⟨col, hcol, hname⟩ hall hne hlr
    unfold validateConfig
    rw [if_pos (by
      simp only [List.any_eq_true, decide_eq_true_eq]
      exact ⟨col, hcol, hname⟩), hmissing_none hall,
      if_neg (fun h => hne (List.length_eq_zero.mp h)), if_pos hlr]
  · rintro ⟨col, hcol, hname⟩ hall hne hlr hep
    unfold validateConfig
    rw [if_pos (by
      simp only [List.any_eq_true, decide_eq_true_eq]
      exact ⟨col, hcol, hname⟩), hmissing_none hall,
      if_neg (fun h => hne (List.length_eq_zero.mp h)),
      if_neg (by
        push_neg
        exact hlr), if_pos hep]

/-- Witness for `trainModel_validates_first`: a config whose target
column is absent fails validation with `targetNotFound` and
`trainModel` returns that error without consulting preparation. -/
theorem trainModel_validates_first_witness :
    validateConfig
        ⟨.logistic,
         ⟨"y", ["x"], false, [], 4/5, none, false, false, false⟩,
         ⟨1/10, 100, 0, 32, 20, none⟩⟩ []
      = some (.targetNotFound "y") ∧
    @trainModel Unit Unit
        ⟨.logistic,
         ⟨"y", ["x"], false, [], 4/5, none, false, false, false⟩,
         ⟨1/10, 100, 0, 32, 20, none⟩⟩ []
        (fun _ => ()) (fun _ => .ok ())
      = .error (.targetNotFound "y") := by
  have h := @trainModel_validates_first Unit Unit
    ⟨.logistic, ⟨"y", ["x"], false, [], 4/5, none, false, false, false⟩,
     ⟨1/10, 100, 0, 32, 20, none⟩⟩ []
  have h3 := h.2.2.1 (by rintro ⟨col, hcol, _⟩; cases hcol)
  refine ⟨h3, ?_⟩
  exact (h.2.1 _ h3 (fun _ => ()) (fun _ => ()) (fun _ => .ok ()) (fun _ => .ok ())).1

end Exchron.Trainer

namespace Exchron.Parser

open Exchron

/-- JS `String.prototype.trim` on a character list. -/
def jsTrimChars (l : List Char) : List Char :=
  ((l.dropWhile Char.isWhitespace).reverse.dropWhile Char.isWhitespace).reverse

/-- JS `String.prototype.trim`. -/
def jsTrim (s : String) : String := String.mk (jsTrimChars s.toList)

/-- JS `String.prototype.toLowerCase` (ASCII). -/
def jsToLower (s : String) : String := String.mk (s.toList.map Char.toLower)

/-- `content.split('\n')`. -/
def splitOnChar (c : Char) (l : List Char) : List (List Char) :=
  l.foldr
    (fun ch acc =>
      if ch = c then [] :: acc
      else match acc with
        | [] => [[ch]]
        | h :: t => (ch :: h) :: t)
    [[]]

/-- The character loop of `parseCSVLines` over one row: quote toggling,
doubled-quote escaping, splitting on the delimiter outside quotes, each
pushed field trimmed. -/
def rowFields (delim : Char) : List Char → Bool → List Char → List (List Char) →
    List (List Char)
  | [], _, currentField, fields => fields ++ [jsTrimChars currentField]
  | ch :: rest, inQuotes, currentField, fields =>
    if ch = '"' then
      match rest, inQuotes with
      | ch2 :: rest2, true =>
        if ch2 = '"' then
          rowFields delim rest2 true (currentField ++ ['"']) fields
        else
          rowFields delim (ch2 :: rest2) false currentField fields
      | [], true => rowFields delim [] false currentField fields
      | r, false => rowFields delim r true currentField fields
    else if ch = delim ∧ ¬inQuotes then
      rowFields delim rest inQuotes [] (fields ++ [jsTrimChars currentField])
    else
      rowFields delim rest inQuotes (currentField ++ [ch]) fields

/-- `parseCSVLines(csvContent, delimiter)`: split on newlines, skip
rows that trim to empty, split each remaining row into trimmed fields
honouring quotes. -/
def parseCSVLines (csvContent : String) (delimiter : Char) : List (List String) :=
  ((splitOnChar '\n' csvContent.toList).filter
      (fun row => decide (jsTrimChars row ≠ []))).map
    (fun row => (rowFields delimiter row false [] []).map String.mk)

/-- `calculateInconsistency(lines)`: fraction of data rows whose field
count differs from the header length. -/
def calculateInconsistency (lines : List (List String)) : ℚ :=
  if lines.length < 2 then 0
  else
    let headerLen := (lines.headD []).length
    let data := lines.tail
    if data.length = 0 then 0
    else ((data.filter (fun r => decide (r.length ≠ headerLen))).length : ℚ)
        / (data.length : ℚ)

/-- The ML-readiness failures `validateForML` collects, one constructor
per pushed message. -/
inductive MLError
  | tooFewRows
  | noTargetColumn
  | noFeatureColumn
  | highMissing (names : List String)
deriving DecidableEq

/-- The errors `parseCSV` can throw, one constructor per
`throw new Error(...)` site, carrying the data its message
interpolates. -/
inductive ParseErr
  | emptyContent
  | noValidRows
  | headerOnly
  | emptyHeader
  | duplicateColumns
  | emptyColumnNames
  | inconsistentRows (bad total : ℕ)
  | tooManyInconsistentTolerant (bad total : ℕ)
  | validationFailed (errors : List MLError)
deriving DecidableEq

/-- `CSVParseOptions`. -/
structure CSVParseOptions where
  maxRows : Option ℕ := none
  tolerant : Bool := false
  maxInconsistencyRatio : Option ℚ := none
  autoDetectDelimiter : Bool := false
  delimiters : Option (List Char) := none
deriving DecidableEq

/-- `validateHeader(header)`: empty header, duplicate column names
(`new Set(header).size !== header.length`), blank column names
(`!col || col.trim() === ''`, which `trim = ""` subsumes). -/
def validateHeader (header : List String) : Option ParseErr :=
  if header.length = 0 then some .emptyHeader
  else if (firstDedup header).length ≠ header.length then some .duplicateColumns
  else if 0 < (header.filter (fun col => decide (jsTrim col = ""))).length then
    some .emptyColumnNames
  else none

/-- `validateRowConsistency(header, rows, options)`: collects the
indices of rows whose field count differs from the header length; in
tolerant mode drops them when their ratio is at most
`maxInconsistencyRatio` (default `0.3`) and fails beyond it; otherwise
fails when the ratio exceeds `0.1`.  The `Bool` is the `filtered`
flag. -/
def validateRowConsistency (header : List String) (rows : List (List String))
    (options : CSVParseOptions) :
    Except ParseErr (List (List String) × Bool) :=
  let expectedColumns := header.length
  let inconsistentIndices := (List.range rows.length).filter
      (fun idx => decide ((rows.getD idx []).length ≠ expectedColumns))
  let ratio : ℚ := (inconsistentIndices.length : ℚ) / (rows.length : ℚ)
  let allowed := options.maxInconsistencyRatio.getD (3/10)
  if 0 < inconsistentIndices.length ∧ options.tolerant then
    if ratio ≤ allowed then
      .ok ((((List.range rows.length).filter
          (fun idx => !(inconsistentIndices.contains idx))).map
            (fun idx => rows.getD idx [])), true)
    else .error (.tooManyInconsistentTolerant inconsistentIndices.length rows.length)
  else if ratio > 1/10 then
    .error (.inconsistentRows inconsistentIndices.length rows.length)
  else .ok (rows, false)

/-- A digit run read as a natural number. -/
def digitsToNat (l : List Char) : ℕ :=
  l.foldl (fun n c => n * 10 + (c.toNat - '0'.toNat)) 0

/-- The optionally signed digit run of a `parseFloat` exponent; an
exponent marker without digits is ignored (JS `parseFloat("1e") = 1`). -/
def parseSignedDigits (l : List Char) : ℤ :=
  match l with
  | '-' :: ds =>
    if ds.takeWhile Char.isDigit = [] then 0
    else -(digitsToNat (ds.takeWhile Char.isDigit) : ℤ)
  | '+' :: ds =>
    if ds.takeWhile Char.isDigit = [] then 0
    else (digitsToNat (ds.takeWhile Char.isDigit) : ℤ)
  | ds =>
    if ds.takeWhile Char.isDigit = [] then 0
    else (digitsToNat (ds.takeWhile Char.isDigit) : ℤ)

/-- `parseFloat(v)` restricted to the finite results (the inference
code filters with `!isNaN(num) && isFinite(num)`): leading whitespace,
optional sign, the longest decimal-with-optional-exponent prefix;
`none` when no digits are consumed or the literal is `Infinity`.
(Exponents large enough to overflow an IEEE double to `Infinity` are
not modelled.) -/
def jsParseFloatFinite (s : String) : Option ℚ :=
  let l := s.toList.dropWhile Char.isWhitespace
  let sign : ℚ := match l with
    | '-' :: _ => -1
    | _ => 1
  let l1 := match l with
    | '-' :: rest => rest
    | '+' :: rest => rest
    | _ => l
  if l1.take 8 = "Infinity".toList then none
  else
    let intPart := l1.takeWhile Char.isDigit
    let l2 := l1.dropWhile Char.isDigit
    let fracPart := match l2 with
      | '.' :: rest => rest.takeWhile Char.isDigit
      | _ => []
    let l3 := match l2 with
      | '.' :: rest => rest.dropWhile Char.isDigit
      | _ => l2
    if intPart = [] ∧ fracPart = [] then none
    else
      let mantissa : ℚ := (digitsToNat intPart : ℚ)
          + (digitsToNat fracPart : ℚ) / ((10 : ℚ) ^ fracPart.length)
      let expVal : ℤ := match l3 with
        | 'e' :: rest => parseSignedDigits rest
        | 'E' :: rest => parseSignedDigits rest
        | _ => 0
      some (sign * mantissa * (10 : ℚ) ^ expVal)

/-- Four consecutive digits somewhere (`\d{4}` as a substring match). -/
def hasFourConsecutiveDigits : List Char → Bool
  | a :: b :: c :: d :: rest =>
    (a.isDigit && b.isDigit && c.isDigit && d.isDigit)
      || hasFourConsecutiveDigits (b :: c :: d :: rest)
  | _ => false

/-- A digit, the separator, a digit, somewhere — exactly when
`\d{1,2}<sep>\d{1,2}` matches as a substring. -/
def hasDigitSepDigit (sep : Char) : List Char → Bool
  | a :: b :: c :: rest =>
    (a.isDigit && decide (b = sep) && c.isDigit)
      || hasDigitSepDigit sep (b :: c :: rest)
  | _ => false

/-- The date-like pattern `/\d{4}|\d{1,2}\/\d{1,2}|\d{1,2}-\d{1,2}/`. -/
def dateLikePattern (s : String) : Bool :=
  hasFourConsecutiveDigits s.toList
    || hasDigitSepDigit '/' s.toList
    || hasDigitSepDigit '-' s.toList

/-- `inferSingleColumnType(values)`.  `new Date(v)` validity is
host-dependent and passed in as the oracle `isValidDate`; the datetime
branch additionally requires the date-like regex to match, exactly as
the source does. -/
def inferSingleColumnType (values : List String)
    (isValidDate : String → Bool) : ColumnType :=
  if values.length = 0 then .text
  else
    let booleanValues : List String := ["true", "false", "1", "0", "yes", "no"]
    let lowercaseValues := values.map jsToLower
    if lowercaseValues.all (fun v => booleanValues.contains v) then .boolean
    else
      let numericCount := (values.filter
          (fun v => (jsParseFloatFinite v).isSome)).length
      if (numericCount : ℚ) / (values.length : ℚ) ≥ 4/5 then .numeric
      else
        let dateCount := (values.filter
            (fun v => isValidDate v && dateLikePattern v)).length
        if (dateCount : ℚ) / (values.length : ℚ) ≥ 4/5 then .datetime
        else
          let uniqueValues := firstDedup values
          if uniqueValues.length ≤ 30
              ∧ (uniqueValues.length : ℚ) < (values.length : ℚ) * (1/2) then
            .categorical
          else .text

/-- The least element of a list (`Math.min(...l)` over a nonempty
spread). -/
def listMin (l : List ℚ) : ℚ := l.foldl min (l.headD 0)

/-- `inferColumnTypes(header, rows)`: per column, the non-missing
values, the inferred type, the missing count, numeric min/max/mean
(population std omitted — it needs `Math.sqrt` and nothing verified
reads it), and up to 50 unique values for categorical columns. -/
def inferColumnTypes (header : List String) (rows : List (List String))
    (isValidDate : String → Bool) : List InferredColumnMeta :=
  (List.range header.length).map (fun colIndex =>
    let columnName := header.getD colIndex ""
    let values := (rows.map (fun row => row.getD colIndex "")).filter
        (fun v => decide (jsTrim v ≠ ""))
    let t := inferSingleColumnType values isValidDate
    let numericValues := values.filterMap jsParseFloatFinite
    { name := columnName
      index := colIndex
      inferredType := t
      missingCount := rows.length - values.length
      min := if t = .numeric ∧ numericValues ≠ [] then
          some (listMin numericValues) else none
      max := if t = .numeric ∧ numericValues ≠ [] then
          some (Evaluation.jsMax numericValues) else none
      mean := if t = .numeric ∧ numericValues ≠ [] then
          some (numericValues.sum / (numericValues.length : ℚ)) else none
      uniqueValues := if t = .categorical then
          some ((firstDedup values).take 50) else none })

/-- `validateForML(columnMeta, rows)`: accumulates the readiness
errors and throws when any exist. -/
def validateForML (columnMeta : List InferredColumnMeta)
    (rows : List (List String)) : Option ParseErr :=
  let errors : List MLError :=
    (if rows.length < 10 then [.tooFewRows] else [])
    ++ (if (columnMeta.filter (fun col =>
          decide (col.inferredType = .categorical ∨ col.inferredType = .boolean))).length
          = 0 then [.noTargetColumn] else [])
    ++ (if (columnMeta.filter (fun col =>
          decide (col.inferredType = .numeric ∨ col.inferredType = .categorical))).length
          < 1 then [.noFeatureColumn] else [])
    ++ (let problematic := columnMeta.filter
          (fun col => decide ((col.missingCount : ℚ) / (rows.length : ℚ) > 1/2))
        if 0 < problematic.length then [.highMissing (problematic.map (fun c => c.name))]
        else [])
  if 0 < errors.length then some (.validationFailed errors) else none

/-- `CSVParser.parseCSV(csvContent, filename, options)`: empty-content
check, optional delimiter auto-detection, header/row split, optional
row cap, header validation, row-consistency validation, type
inference, ML-readiness validation.  Thrown errors become `.error`;
no partial dataset accompanies an error. -/
def parseCSV (csvContent : String) (filename : String)
    (options : CSVParseOptions) (isValidDate : String → Bool) :
    Except ParseErr (RawDataset × List InferredColumnMeta × ParseStats) :=
  if jsTrim csvContent = "" then .error .emptyContent
  else
    let primaryDelimiters := options.delimiters.getD [',', ';', '\t', '|']
    let initLines := parseCSVLines csvContent ','
    let linesDelim : List (List String) × Char :=
      if options.autoDetectDelimiter then
        let inconsistencyScore := calculateInconsistency initLines
        if inconsistencyScore > 3/10 then
          let best := primaryDelimiters.foldl
            (fun best d =>
              let test := parseCSVLines csvContent d
              let score := calculateInconsistency test
              if score < best.2.1 ∧ 1 < test.length then (test, score, d) else best)
            (initLines, inconsistencyScore, ',')
          (best.1, if best.2.1 < inconsistencyScore then best.2.2 else ',')
        else (initLines, ',')
      else (initLines, ',')
    let lines := linesDelim.1
    let chosenDelimiter := linesDelim.2
    if lines.length = 0 then .error .noValidRows
    else if lines.length = 1 then .error .headerOnly
    else
      let header := lines.headD []
      let rows0 := lines.tail
      let rows1 := match options.maxRows with
        | some mr => if 0 < mr ∧ mr < rows0.length then rows0.take mr else rows0
        | none => rows0
      match validateHeader header with
      | some e => .error e
      | none =>
        match validateRowConsistency header rows1 options with
        | .error e => .error e
        | .ok (rows2, filtered) =>
          let rawDataset : RawDataset :=
            ⟨filename, csvContent, header, rows2⟩
          let columnMeta := inferColumnTypes header rows2 isValidDate
          match validateForML columnMeta rows2 with
          | some e => .error e
          | none =>
            .ok (rawDataset, columnMeta,
              ⟨chosenDelimiter,
               if filtered then rows1.length - rows2.length else 0,
               rows1.length, rows2.length⟩)

/-- The per-column type-inference rule in the claim's words (amended:
the `{x,y,x,x,z}` scenario yields `text`, since 3 uniques is not less
than half of 5): boolean if every value is one of
`{true,false,1,0,yes,no}` case-insensitively; else numeric if at least
80% parse as finite numbers; else datetime if at least 80% are valid
dates matching the date-like pattern; else categorical if the
unique-value count is at most 30 and less than half the value count;
else text. -/
def claimedColumnType (values : List String) (isValidDate : String → Bool) :
    ColumnType :=
  if ∀ v ∈ values, jsToLower v ∈ (["true", "false", "1", "0", "yes", "no"] : List String) then
    .boolean
  else if (4/5 : ℚ) * (values.length : ℚ) ≤
      ((values.filter (fun v => (jsParseFloatFinite v).isSome)).length : ℚ) then
    .numeric
  else if (4/5 : ℚ) * (values.length : ℚ) ≤
      ((values.filter (fun v => isValidDate v && dateLikePattern v)).length : ℚ) then
    .datetime
  else if (firstDedup values).length ≤ 30
      ∧ 2 * (firstDedup values).length < values.length then
    .categorical
  else .text

/-- C8 (amended): `inferSingleColumnType` on a nonempty value list
follows exactly the claimed priority rule, for every date oracle; the
5-value column `{x,y,x,x,z}` (3 uniques, not less than 2.5) is inferred
`text`, and a column of 5 strictly increasing floats is inferred
`numeric`. -/
theorem inferSingleColumnType_spec (values : List String)
    (isValidDate : String → Bool) (hne : values ≠ []) :
    inferSingleColumnType values isValidDate
      = claimedColumnType values isValidDate ∧
    inferSingleColumnType ["x", "y", "x", "x", "z"] (fun _ => true) = .text ∧
    inferSingleColumnType ["1.5", "2.5", "3.5", "4.5", "5.5"] (fun _ => true)
      = .numeric := by
  refine ⟨?_, by decide, by decide⟩
  have hnlen : 0 < values.length := List.length_pos.mpr hne
  have hnQ : (0 : ℚ) < (values.length : ℚ) := by exact_mod_cast hnlen
  unfold inferSingleColumnType claimedColumnType
  rw [if_neg (by omega : ¬ values.length = 0)]
  have hb : ((values.map jsToLower).all
      (fun v => (["true", "false", "1", "0", "yes", "no"] : List String).contains v)) = true
      ↔ ∀ v ∈ values, jsToLower v ∈ (["true", "false", "1", "0", "yes", "no"] : List String) := by
    rw [List.all_map, List.all_eq_true]
    constructor
    · intro h v hv
      have := h v hv
      simpa using this
    · intro h v hv
      simpa using h v hv
  by_cases hbool : ∀ v ∈ values,
      jsToLower v ∈ (["true", "false", "1", "0", "yes", "no"] : List String)
  · rw [if_pos (hb.mpr hbool), if_pos hbool]
  · rw [if_neg (fun h => hbool (hb.mp h)), if_neg hbool]
    have hnum_iff : (((values.filter (fun v => (jsParseFloatFinite v).isSome)).length : ℚ)
          / (values.length : ℚ) ≥ 4/5)
        ↔ ((4/5 : ℚ) * (values.length : ℚ) ≤
          ((values.filter (fun v => (jsParseFloatFinite v).isSome)).length : ℚ)) := by
      rw [ge_iff_le, le_div_iff hnQ]
    by_cases hnum : (4/5 : ℚ) * (values.length : ℚ) ≤
        ((values.filter (fun v => (jsParseFloatFinite v).isSome)).length : ℚ)
    · rw [if_pos (hnum_iff.mpr hnum), if_pos hnum]
    · rw [if_neg (fun h => hnum (hnum_iff.mp h)), if_neg hnum]
      have hdate_iff : (((values.filter
            (fun v => isValidDate v && dateLikePattern v)).length : ℚ)
            / (values.length : ℚ) ≥ 4/5)
          ↔ ((4/5 : ℚ) * (values.length : ℚ) ≤
            ((values.filter (fun v => isValidDate v && dateLikePattern v)).length : ℚ)) := by
        rw [ge_iff_le, le_div_iff hnQ]
      by_cases hdate : (4/5 : ℚ) * (values.length : ℚ) ≤
          ((values.filter (fun v => isValidDate v && dateLikePattern v)).length : ℚ)
      · rw [if_pos (hdate_iff.mpr hdate), if_pos hdate]
      · rw [if_neg (fun h => hdate (hdate_iff.mp h)), if_neg hdate]
        have hcat_iff : ((firstDedup values).length ≤ 30 ∧
              ((firstDedup values).length : ℚ) < (values.length : ℚ) * (1/2))
            ↔ ((firstDedup values).length ≤ 30 ∧
              2 * (firstDedup values).length < values.length) := by
          constructor
          · rintro ⟨h1, h2⟩
            refine ⟨h1, ?_⟩
            have h3 : ((2 * (firstDedup values).length : ℕ) : ℚ)
                < (values.length : ℚ) := by push_cast; linarith
            exact_mod_cast h3
          · rintro ⟨h1, h2⟩
            refine ⟨h1, ?_⟩
            have h3 : ((2 * (firstDedup values).length : ℕ) : ℚ)
                < (values.length : ℚ) := by exact_mod_cast h2
            push_cast at h3
            linarith
        by_cases hcat : (firstDedup values).length ≤ 30 ∧
            2 * (firstDedup values).length < values.length
        · rw [if_pos (hcat_iff.mpr hcat), if_pos hcat]
        · rw [if_neg (fun h => hcat (hcat_iff.mp h)), if_neg hcat]

/-- C8 (counterexample to the categorical scenario as stated): the
5-value column `{x,y,x,x,z}` has 3 unique values, which is not less
than half of 5, so the code infers `text`, not `categorical` — even for
a date oracle that accepts everything. -/
theorem inferSingleColumnType_xyz_counterexample :
    inferSingleColumnType ["x", "y", "x", "x", "z"] (fun _ => true) = .text ∧
    ColumnType.text ≠ ColumnType.categorical := by
  exact ⟨by decide, by decide⟩

/-- Witness for `inferSingleColumnType_spec` at the numeric-floats
scenario column. -/
theorem inferSingleColumnType_spec_witness :
    inferSingleColumnType ["1.5", "2.5", "3.5", "4.5", "5.5"] (fun _ => true)
      = claimedColumnType ["1.5", "2.5", "3.5", "4.5", "5.5"] (fun _ => true) :=
  (inferSingleColumnType_spec ["1.5", "2.5", "3.5", "4.5", "5.5"] (fun _ => true)
    (by decide)).1

lemma map_getD_range_generic {α : Type} :
    ∀ (l : List α) (d : α),
      (List.range l.length).map (fun i => l.getD i d) = l := by
  intro l
  induction l with
  | nil => intro d; simp
  | cons a l ih =>
    intro d
    rw [List.length_cons, List.range_succ_eq_map, List.map_cons, List.map_map]
    have htail : List.map ((fun i => (a :: l).getD i d) ∘ Nat.succ) (List.range l.length)
        = l := by
      have hfun : ((fun i => (a :: l).getD i d) ∘ Nat.succ) = (fun i => l.getD i d) := by
        funext i
        rfl
      rw [hfun]
      exact ih d
    rw [htail]
    rfl

lemma countP_range_getD {α : Type} (l : List α) (d : α) (p : α → Bool) :
    (List.range l.length).countP (fun i => p (l.getD i d)) = l.countP p := by
  conv_rhs => rw [← map_getD_range_generic l d]
  rw [List.countP_map]
  rfl

lemma length_filter_range_getD {α : Type} (l : List α) (d : α) (p : α → Bool) :
    ((List.range l.length).filter (fun i => p (l.getD i d))).length
      = (l.filter p).length := by
  rw [← List.countP_eq_length_filter, ← List.countP_eq_length_filter]
  exact countP_range_getD l d p

lemma map_getD_filter_range {α : Type} :
    ∀ (l : List α) (d : α) (q : α → Bool),
      ((List.range l.length).filter (fun i => q (l.getD i d))).map
          (fun i => l.getD i d)
        = l.filter q := by
  intro l
  induction l with
  | nil => intro d q; simp
  | cons a l ih =>
    intro d q
    rw [List.length_cons, List.range_succ_eq_map]
    rw [show ((0 : ℕ) :: List.map Nat.succ (List.range l.length))
        = [0] ++ List.map Nat.succ (List.range l.length) from rfl]
    rw [List.filter_append, List.map_append]
    rw [List.filter_map, List.map_map]
    have hcomp : ((fun i => q ((a :: l).getD i d)) ∘ Nat.succ)
        = (fun i => q (l.getD i d)) := by
      funext i
      rfl
    have hcomp2 : ((fun i => (a :: l).getD i d) ∘ Nat.succ)
        = (fun i => l.getD i d) := by
      funext i
      rfl
    rw [hcomp, hcomp2, ih d q]
    by_cases hq : q a = true
    · simp [List.filter_cons, hq]
    · simp only [Bool.not_eq_true] at hq
      simp [List.filter_cons, hq]

lemma badLength_count (header : List String) (rows : List (List String)) :
    ((List.range rows.length).filter
        (fun idx => decide ((rows.getD idx []).length ≠ header.length))).length
      = (rows.filter (fun r => decide (r.length ≠ header.length))).length :=
  length_filter_range_getD rows [] (fun r => decide (r.length ≠ header.length))

lemma keptRows_eq (header : List String) (rows : List (List String)) :
    ((List.range rows.length).filter
        (fun idx => !(((List.range rows.length).filter
            (fun idx => decide ((rows.getD idx []).length ≠ header.length))).contains idx))).map
        (fun idx => rows.getD idx [])
      = rows.filter (fun r => decide (r.length = header.length)) := by
  have hcong : (List.range rows.length).filter
      (fun idx => !(((List.range rows.length).filter
          (fun idx => decide ((rows.getD idx []).length ≠ header.length))).contains idx))
      = (List.range rows.length).filter
          (fun idx => decide ((rows.getD idx []).length = header.length)) := by
    apply List.filter_congr
    intro idx hidx
    rw [show ((List.range rows.length).filter
        (fun idx => decide ((rows.getD idx []).length ≠ header.length))).contains idx
        = List.elem idx ((List.range rows.length).filter
            (fun idx => decide ((rows.getD idx []).length ≠ header.length)))
      from rfl, List.elem_eq_mem]
    by_cases hl : (rows.getD idx []).length = header.length
    · have hnotmem : idx ∉ (List.range rows.length).filter
          (fun idx => decide ((rows.getD idx []).length ≠ header.length)) := by
        intro hmem
        exact of_decide_eq_true (List.mem_filter.mp hmem).2 hl
      rw [decide_eq_false hnotmem, decide_eq_true hl]
      rfl
    · have hmem : idx ∈ (List.range rows.length).filter
          (fun idx => decide ((rows.getD idx []).length ≠ header.length)) :=
        List.mem_filter.mpr ⟨hidx, decide_eq_true hl⟩
      rw [decide_eq_true hmem, decide_eq_false hl]
      rfl
  rw [hcong]
  exact map_getD_filter_range rows []
    (fun r => decide (r.length = header.length))

lemma validateRowConsistency_strict (header : List String)
    (rows : List (List String)) (opts : CSVParseOptions)
    (htol : opts.tolerant = false)
    (hratio : ((rows.filter (fun r => decide (r.length ≠ header.length))).length : ℚ)
        / (rows.length : ℚ) > 1/10) :
    validateRowConsistency header rows opts
      = .error (.inconsistentRows
          (rows.filter (fun r => decide (r.length ≠ header.length))).length
          rows.length) := by
  simp only [validateRowConsistency]
  rw [if_neg (by simp [htol]),
    if_pos (by rw [badLength_count header rows]; exact hratio),
    badLength_count header rows]

lemma validateRowConsistency_tolerant_drop (header : List String)
    (rows : List (List String)) (opts : CSVParseOptions)
    (htol : opts.tolerant = true)
    (hbad : 0 < (rows.filter (fun r => decide (r.length ≠ header.length))).length)
    (hratio : ((rows.filter (fun r => decide (r.length ≠ header.length))).length : ℚ)
        / (rows.length : ℚ) ≤ opts.maxInconsistencyRatio.getD (3/10)) :
    validateRowConsistency header rows opts
      = .ok (rows.filter (fun r => decide (r.length = header.length)), true) := by
  simp only [validateRowConsistency]
  rw [if_pos ⟨by rw [badLength_count header rows]; exact hbad, by rw [htol]⟩,
    if_pos (by rw [badLength_count header rows]; exact hratio),
    keptRows_eq header rows]

lemma validateRowConsistency_tolerant_fail (header : List String)
    (rows : List (List String)) (opts : CSVParseOptions)
    (htol : opts.tolerant = true)
    (hbad : 0 < (rows.filter (fun r => decide (r.length ≠ header.length))).length)
    (hratio : ¬(((rows.filter (fun r => decide (r.length ≠ header.length))).length : ℚ)
        / (rows.length : ℚ) ≤ opts.maxInconsistencyRatio.getD (3/10))) :
    validateRowConsistency header rows opts
      = .error (.tooManyInconsistentTolerant
          (rows.filter (fun r => decide (r.length ≠ header.length))).length
          rows.length) := by
  simp only [validateRowConsistency]
  rw [if_pos ⟨by rw [badLength_count header rows]; exact hbad, by rw [htol]⟩,
    if_neg (by rw [badLength_count header rows]; exact hratio),
    badLength_count header rows]

/-- Under no auto-detection, no row cap, nonempty content and a valid
header, `parseCSV` reduces to the row-consistency check followed by
type inference and ML validation on the comma-parsed lines. -/
lemma parseCSV_reduces (content filename : String) (opts : CSVParseOptions)
    (d : String → Bool)
    (hauto : opts.autoDetectDelimiter = false) (hmax : opts.maxRows = none)
    (hne : jsTrim content ≠ "")
    (hlen : 2 ≤ (parseCSVLines content ',').length)
    (hvh : validateHeader ((parseCSVLines content ',').headD []) = none) :
    parseCSV content filename opts d
      = match validateRowConsistency ((parseCSVLines content ',').headD [])
          (parseCSVLines content ',').tail opts with
        | .error e => .error e
        | .ok (rows2, filtered) =>
          match validateForML
              (inferColumnTypes ((parseCSVLines content ',').headD []) rows2 d)
              rows2 with
          | some e => .error e
          | none =>
            .ok (⟨filename, content, (parseCSVLines content ',').headD [], rows2⟩,
              inferColumnTypes ((parseCSVLines content ',').headD []) rows2 d,
              ⟨',',
               if filtered then
                 (parseCSVLines content ',').tail.length - rows2.length
               else 0,
               (parseCSVLines content ',').tail.length, rows2.length⟩) := by
  simp only [parseCSV, hauto, hmax, Bool.false_eq_true, if_false, if_neg hne]
  rw [if_neg (by omega : ¬ (parseCSVLines content ',').length = 0),
    if_neg (by omega : ¬ (parseCSVLines content ',').length = 1), hvh]

/-- The scenario input of C5: header `a,b`, one of three data rows with
3 fields. -/
def strictSampleCSV : String := "a,b\n1,2\n3,4,5\n6,7"

/-- A tolerant-mode sample: 12 data rows, one with 3 fields
(ratio 1/12 ≤ 0.3), whose 11 kept rows pass the ML-readiness check. -/
def tolerantSampleCSV : String :=
  "a,b\nx,1\ny,2\nx,3\ny,4\nx,5\ny,6\nx,7\ny,8\nx,9\ny,10\nx,11\n1,2,3"

/-- C5: row-length mismatch handling of `parseCSV` (on the comma path:
no delimiter auto-detection, no row cap, nonempty content, valid
header).  In strict (non-tolerant) mode parsing fails with the
row-count-mismatch error whenever the fraction of data rows whose field
count differs from the header length exceeds `0.1`; in tolerant mode
the offending rows are dropped when their ratio is at most the
configured threshold (default `0.3`) and parsing fails with the
tolerant-overflow error when the ratio exceeds it; the scenario
`a,b` with one of three data rows having 3 fields fails in strict mode
naming the mismatch counts.  Failure is an `Except.error`, so no
partial dataset accompanies it. -/
theorem parseCSV_row_mismatch_spec :
    (∀ (content filename : String) (opts : CSVParseOptions) (d : String → Bool),
      opts.tolerant = false → opts.autoDetectDelimiter = false →
      opts.maxRows = none → jsTrim content ≠ "" →
      2 ≤ (parseCSVLines content ',').length →
      validateHeader ((parseCSVLines content ',').headD []) = none →
      (((parseCSVLines content ',').tail.filter (fun r => decide (r.length
          ≠ ((parseCSVLines content ',').headD []).length))).length : ℚ)
          / ((parseCSVLines content ',').tail.length : ℚ) > 1/10 →
      parseCSV content filename opts d
        = .error (.inconsistentRows
            ((parseCSVLines content ',').tail.filter (fun r => decide (r.length
              ≠ ((parseCSVLines content ',').headD []).length))).length
            (parseCSVLines content ',').tail.length)) ∧
    (∀ (content filename : String) (opts : CSVParseOptions) (d : String → Bool),
      opts.tolerant = true → opts.autoDetectDelimiter = false →
      opts.maxRows = none → jsTrim content ≠ "" →
      2 ≤ (parseCSVLines content ',').length →
      validateHeader ((parseCSVLines content ',').headD []) = none →
      0 < ((parseCSVLines content ',').tail.filter (fun r => decide (r.length
          ≠ ((parseCSVLines content ',').headD []).length))).length →
      (((parseCSVLines content ',').tail.filter (fun r => decide (r.length
          ≠ ((parseCSVLines content ',').headD []).length))).length : ℚ)
          / ((parseCSVLines content ',').tail.length : ℚ)
          ≤ opts.maxInconsistencyRatio.getD (3/10) →
      validateForML
          (inferColumnTypes ((parseCSVLines content ',').headD [])
            ((parseCSVLines content ',').tail.filter (fun r => decide (r.length
              = ((parseCSVLines content ',').headD []).length))) d)
          ((parseCSVLines content ',').tail.filter (fun r => decide (r.length
            = ((parseCSVLines content ',').headD []).length))) = none →
      parseCSV content filename opts d
        = .ok (⟨filename, content, (parseCSVLines content ',').headD [],
            (parseCSVLines content ',').tail.filter (fun r => decide (r.length
              = ((parseCSVLines content ',').headD []).length))⟩,
          inferColumnTypes ((parseCSVLines content ',').headD [])
            ((parseCSVLines content ',').tail.filter (fun r => decide (r.length
              = ((parseCSVLines content ',').headD []).length))) d,
          ⟨',',
           (parseCSVLines content ',').tail.length
             - ((parseCSVLines content ',').tail.filter (fun r => decide (r.length
                 = ((parseCSVLines content ',').headD []).length))).length,
           (parseCSVLines content ',').tail.length,
           ((parseCSVLines content ',').tail.filter (fun r => decide (r.length
             = ((parseCSVLines content ',').headD []).length))).length⟩)) ∧
    (∀ (content filename : String) (opts : CSVParseOptions) (d : String → Bool),
      opts.tolerant = true → opts.autoDetectDelimiter = false →
      opts.maxRows = none → jsTrim content ≠ "" →
      2 ≤ (parseCSVLines content ',').length →
      validateHeader ((parseCSVLines content ',').headD []) = none →
      0 < ((parseCSVLines content ',').tail.filter (fun r => decide (r.length
          ≠ ((parseCSVLines content ',').headD []).length))).length →
      ¬((((parseCSVLines content ',').tail.filter (fun r => decide (r.length
          ≠ ((parseCSVLines content ',').headD []).length))).length : ℚ)
          / ((parseCSVLines content ',').tail.length : ℚ)
          ≤ opts.maxInconsistencyRatio.getD (3/10)) →
      parseCSV content filename opts d
        = .error (.tooManyInconsistentTolerant
            ((parseCSVLines content ',').tail.filter (fun r => decide (r.length
              ≠ ((parseCSVLines content ',').headD []).length))).length
            (parseCSVLines content ',').tail.length)) ∧
    parseCSV strictSampleCSV "data.csv" {} (fun _ => false)
      = .error (.inconsistentRows 1 3) := by
  have h1 : ∀ (content filename : String) (opts : CSVParseOptions) (d : String → Bool),
      opts.tolerant = false → opts.autoDetectDelimiter = false →
      opts.maxRows = none → jsTrim content ≠ "" →
      2 ≤ (parseCSVLines content ',').length →
      validateHeader ((parseCSVLines content ',').headD []) = none →
      (((parseCSVLines content ',').tail.filter (fun r => decide (r.length
          ≠ ((parseCSVLines content ',').headD []).length))).length : ℚ)
          / ((parseCSVLines content ',').tail.length : ℚ) > 1/10 →
      parseCSV content filename opts d
        = .error (.inconsistentRows
            ((parseCSVLines content ',').tail.filter (fun r => decide (r.length
              ≠ ((parseCSVLines content ',').headD []).length))).length
            (parseCSVLines content ',').tail.length) := by
    intro content filename opts d htol hauto hmax hne hlen hvh hratio
    rw [parseCSV_reduces content filename opts d hauto hmax hne hlen hvh,
      validateRowConsistency_strict _ _ _ htol hratio]
  refine ⟨h1, ?_, ?_, ?_⟩
  case refine_3 =>
    have hs := h1 strictSampleCSV "data.csv" {} (fun _ => false)
      rfl rfl rfl (by decide) (by decide) (by decide) (by decide)
    have hN : ((parseCSVLines strictSampleCSV ',').tail.filter (fun r => decide (r.length
        ≠ ((parseCSVLines strictSampleCSV ',').headD []).length))).length = 1 := by decide
    have hM : (parseCSVLines strictSampleCSV ',').tail.length = 3 := by decide
    rw [hN, hM] at hs
    exact hs
  · intro content filename opts d htol hauto hmax hne hlen hvh hbad hratio hml
    rw [parseCSV_reduces content filename opts d hauto hmax hne hlen hvh,
      validateRowConsistency_tolerant_drop _ _ _ htol hbad hratio]
    dsimp only
    rw [hml]
    rfl
  · intro content filename opts d htol hauto hmax hne hlen hvh hbad hratio
    rw [parseCSV_reduces content filename opts d hauto hmax hne hlen hvh,
      validateRowConsistency_tolerant_fail _ _ _ htol hbad hratio]

/-- Witness for `parseCSV_row_mismatch_spec`: the strict scenario fails
with the mismatch error; the 12-row tolerant sample drops its one
offending row and parses; the strict scenario under tolerant mode
(ratio 1/3 > 0.3) fails with the tolerant-overflow error. -/
theorem parseCSV_row_mismatch_spec_witness :
    parseCSV strictSampleCSV "data.csv" {} (fun _ => false)
      = .error (.inconsistentRows
          ((parseCSVLines strictSampleCSV ',').tail.filter (fun r => decide (r.length
            ≠ ((parseCSVLines strictSampleCSV ',').headD []).length))).length
          (parseCSVLines strictSampleCSV ',').tail.length) ∧
    parseCSV tolerantSampleCSV "data.csv" ⟨none, true, none, false, none⟩
        (fun _ => false)
      = .ok (⟨"data.csv", tolerantSampleCSV, (parseCSVLines tolerantSampleCSV ',').headD [],
          (parseCSVLines tolerantSampleCSV ',').tail.filter (fun r => decide (r.length
            = ((parseCSVLines tolerantSampleCSV ',').headD []).length))⟩,
        inferColumnTypes ((parseCSVLines tolerantSampleCSV ',').headD [])
          ((parseCSVLines tolerantSampleCSV ',').tail.filter (fun r => decide (r.length
            = ((parseCSVLines tolerantSampleCSV ',').headD []).length))) (fun _ => false),
        ⟨',',
         (parseCSVLines tolerantSampleCSV ',').tail.length
           - ((parseCSVLines tolerantSampleCSV ',').tail.filter (fun r => decide (r.length
               = ((parseCSVLines tolerantSampleCSV ',').headD []).length))).length,
         (parseCSVLines tolerantSampleCSV ',').tail.length,
         ((parseCSVLines tolerantSampleCSV ',').tail.filter (fun r => decide (r.length
           = ((parseCSVLines tolerantSampleCSV ',').headD []).length))).length⟩) ∧
    parseCSV strictSampleCSV "data.csv" ⟨none, true, none, false, none⟩
        (fun _ => false)
      = .error (.tooManyInconsistentTolerant
          ((parseCSVLines strictSampleCSV ',').tail.filter (fun r => decide (r.length
            ≠ ((parseCSVLines strictSampleCSV ',').headD []).length))).length
          (parseCSVLines strictSampleCSV ',').tail.length) :=
  ⟨parseCSV_row_mismatch_spec.1 strictSampleCSV "data.csv" {} (fun _ => false)
      rfl rfl rfl (by decide) (by decide) (by decide) (by decide),
   parseCSV_row_mismatch_spec.2.1 tolerantSampleCSV "data.csv"
      ⟨none, true, none, false, none⟩ (fun _ => false)
      rfl rfl rfl (by decide) (by decide) (by decide) (by decide) (by decide)
      (by decide),
   parseCSV_row_mismatch_spec.2.2.1 strictSampleCSV "data.csv"
      ⟨none, true, none, false, none⟩ (fun _ => false)
      rfl rfl rfl (by decide) (by decide) (by decide) (by decide) (by decide)⟩

end Exchron.Parser

namespace Exchron.Encoding

open Exchron Exchron.Parser

/-- `EncodingInfo` (per feature): type, optional insertion-ordered
category→index mapping, optional `{mean, std}` normalization stats. -/
structure EncodingInfo where
  columnName : String
  type : ColumnType
  categoricalMapping : Option (List (String × ℕ)) := none
  normalizeStats : Option (ℚ × ℚ) := none
deriving DecidableEq

/-- `featureMatrixShape`: `rows` is `features.length /
filteredFeatures.length`, a JS float division, hence rational. -/
structure FeatureMatrixShape where
  rows : ℚ
  cols : ℕ
deriving DecidableEq

/-- `targetType`. -/
inductive TargetType
  | binary
  | multiclass
  | regression
deriving DecidableEq

/-- `PreparedDataset`. -/
structure PreparedDataset where
  features : List ℚ
  featureMatrixShape : FeatureMatrixShape
  featureNames : List String
  target : List ℚ
  targetType : TargetType
  encodingMap : List (String × List String)
deriving DecidableEq

/-- Lookup in a JS `Record<string, T>` modelled as an association
list. -/
def recordGet {α : Type} (rec : List (String × α)) (k : String) : Option α :=
  (rec.find? (fun p => decide (p.1 = k))).map Prod.snd

/-- A column meta that can never be found (the source asserts presence
with `!`; this default is never reached in the verified statements). -/
def defaultMeta : InferredColumnMeta :=
  ⟨"", 0, .text, 0, none, none, none, none⟩

/-- `DataPreprocessor.filterFeatures`: optionally remove constant
(`uniqueValues.length <= 1`) and >50%-missing selected features,
recording removals. -/
def filterFeatures (rawDataset : RawDataset)
    (columnMeta : List InferredColumnMeta) (config : PreprocessingConfig) :
    List String × List String :=
  let constantFeatures : List String :=
    if config.removeConstantFeatures then
      (columnMeta.filter (fun col =>
        config.selectedFeatures.contains col.name &&
        (match col.uniqueValues with
         | some u => decide (u.length ≤ 1)
         | none => false))).map (fun col => col.name)
    else []
  let filtered1 :=
    if config.removeConstantFeatures then
      config.selectedFeatures.filter (fun f => !(constantFeatures.contains f))
    else config.selectedFeatures
  let highMissingFeatures : List String :=
    if config.removeHighMissingFeatures then
      (columnMeta.filter (fun col =>
        config.selectedFeatures.contains col.name &&
        decide ((col.missingCount : ℚ) / (rawDataset.rows.length : ℚ) > 1/2))).map
          (fun col => col.name)
    else []
  let filtered2 :=
    if config.removeHighMissingFeatures then
      filtered1.filter (fun f => !(highMissingFeatures.contains f))
    else filtered1
  (filtered2, constantFeatures ++ highMissingFeatures)

/-- `DataPreprocessor.calculateImputationValue`: mean of the valid
numeric values under `'mean'` on a numeric column, most frequent valid
value under `'mode'`, then type-based fallback.  Float printing
(`mean.toString()`) is passed in as `numToString`. -/
def calculateImputationValue (rows : List (List String)) (colIndex : Option ℕ)
    (strategy : Strategy) (colMeta : InferredColumnMeta)
    (numToString : ℚ → String) : String :=
  let validValues := (rows.map (fun row =>
      match colIndex with
      | some i => row.getD i ""
      | none => "")).filter (fun v => decide (jsTrim v ≠ ""))
  let meanResult : Option String :=
    if strategy = .mean ∧ colMeta.inferredType = .numeric then
      let numericValues := validValues.filterMap jsParseFloatFinite
      if numericValues.length ≠ 0 then
        some (numToString (numericValues.sum / (numericValues.length : ℚ)))
      else none
    else none
  match meanResult with
  | some s => s
  | none =>
    let modeResult : Option String :=
      if strategy = .mode then
        let best := (firstDedup validValues).foldl
          (fun best v =>
            let c := validValues.count v
            if best.2 < c then (v, c) else best) ("", 0)
        if best.1 ≠ "" then some best.1 else none
      else none
    match modeResult with
    | some s => s
    | none =>
      if colMeta.inferredType = .numeric then "0"
      else if colMeta.inferredType = .boolean then "false"
      else "unknown"

/-- `DataPreprocessor.cleanDataEnhanced`: drop rows with missing
target, impute missing selected-feature cells (strategy default
`'mean'`; `'drop'` leaves an empty cell), and report per-column
strategy and imputed count. -/
def cleanDataEnhanced (rawDataset : RawDataset)
    (columnMeta : List InferredColumnMeta) (config : PreprocessingConfig)
    (numToString : ℚ → String) :
    (List String × List (List String)) × List (String × Strategy × ℕ) :=
  let targetIdx := rawDataset.header.findIdx?
      (fun h => decide (h = config.targetColumn))
  let validRows := rawDataset.rows.filter (fun row =>
    decide (jsTrim (match targetIdx with
      | some i => row.getD i ""
      | none => "") ≠ ""))
  let imputationValues : List (String × String) :=
    config.selectedFeatures.filterMap (fun columnName =>
      let colIndex := rawDataset.header.findIdx? (fun h => decide (h = columnName))
      let strategy := (recordGet config.missingValueStrategy columnName).getD .mean
      match columnMeta.find? (fun col => decide (col.name = columnName)) with
      | some colMeta =>
        if strategy ≠ .drop then
          some (columnName,
            calculateImputationValue validRows colIndex strategy colMeta numToString)
        else none
      | none => none)
  let processedRows := validRows.map (fun row =>
    row.mapIdx (fun colIndex value =>
      let columnName := rawDataset.header.getD colIndex ""
      if jsTrim value = "" ∧ config.selectedFeatures.contains columnName then
        let strategy := (recordGet config.missingValueStrategy columnName).getD .mean
        if strategy = .drop then ""
        else match recordGet imputationValues columnName with
          | some s => if s = "" then "0" else s
          | none => "0"
      else value))
  let stats := config.selectedFeatures.map (fun columnName =>
    let strategy := (recordGet config.missingValueStrategy columnName).getD .mean
    let colIndex := rawDataset.header.findIdx? (fun h => decide (h = columnName))
    let cnt := if strategy = .drop then 0
      else (validRows.filter (fun row =>
        decide (jsTrim (match colIndex with
          | some i => row.getD i ""
          | none => "") = ""))).length
    (columnName, strategy, cnt))
  ((rawDataset.header, processedRows), stats)

/-- `DataPreprocessor.encodeColumn`: numeric passes through
(`NaN ↦ 0`), boolean maps `{true,1,yes}` case-insensitively to `1`,
anything else gets a first-seen category→index mapping (datetime/text
fall through to the categorical treatment, as in the source's default
branch). -/
def encodeColumn (values : List String) (columnMeta : InferredColumnMeta)
    (columnName : String) : List ℚ × EncodingInfo :=
  if columnMeta.inferredType = .numeric then
    (values.map (fun v => (jsParseFloatFinite v).getD 0),
     ⟨columnName, .numeric, none, none⟩)
  else if columnMeta.inferredType = .boolean then
    (values.map (fun v =>
      if jsToLower v = "true" ∨ jsToLower v = "1" ∨ jsToLower v = "yes" then
        (1 : ℚ) else 0),
     ⟨columnName, .boolean, none, none⟩)
  else
    let uniqueValues := firstDedup values
    let mapping := uniqueValues.enum.map (fun p => (p.2, p.1))
    (values.map (fun v => (((recordGet mapping v).getD 0 : ℕ) : ℚ)),
     ⟨columnName, .categorical, some mapping, none⟩)

/-- `DataPreprocessor.oneHotEncode`: one indicator vector per category,
in mapping insertion order. -/
def oneHotEncode (encoded : List ℚ) (categoricalMapping : List (String × ℕ)) :
    List (List ℚ) × List String :=
  let categories := categoricalMapping.map (fun p => p.1)
  ((List.range categories.length).map (fun catIdx =>
    encoded.map (fun e => if e = (catIdx : ℚ) then (1 : ℚ) else 0)),
   categories)

/-- Accumulator of the feature-encoding loop of `encodeDataEnhanced`. -/
structure EncodeAcc where
  allFeatureValues : List (List ℚ)
  expandedFeatureNames : List String
  encodingInfo : List EncodingInfo
  oneHotMapping : List (String × List String)
deriving DecidableEq

/-- What `encodeDataEnhanced` computes.  The source keeps
`expandedFeatureNames` in a local variable and never returns it; the
model exposes it so the claims can talk about it. -/
structure EncodeResult where
  features : List ℚ
  target : List ℚ
  encodingInfo : List EncodingInfo
  oneHotMapping : List (String × List String)
  expandedFeatureNames : List String
deriving DecidableEq

/-- `DataPreprocessor.encodeDataEnhanced`: encode the target, encode
each selected feature (expanding categorical features to one-hot
indicator columns named `<feature>_<category>` when enabled), z-score
normalize the numeric features when enabled, and flatten row-major.
The normalization loop runs over `allFeatureValues` but reads
`encodingInfo[i]` — after one-hot expansion the two have different
lengths; for the out-of-range indices JS would throw on
`undefined.type`, and the model leaves those columns untouched (no
verified statement enables normalization together with one-hot). -/
def encodeDataEnhanced (cleanedData : List String × List (List String))
    (columnMeta : List InferredColumnMeta) (config : PreprocessingConfig)
    (sqrtQ : ℚ → ℚ) : EncodeResult :=
  let header := cleanedData.1
  let rows := cleanedData.2
  let numSamples := rows.length
  let targetIdx := header.findIdx? (fun h => decide (h = config.targetColumn))
  let targetMeta := (columnMeta.find?
      (fun col => decide (col.name = config.targetColumn))).getD defaultMeta
  let encodedTarget := (encodeColumn
    (rows.map (fun row => match targetIdx with
      | some i => row.getD i ""
      | none => ""))
    targetMeta config.targetColumn).1
  let acc := config.selectedFeatures.foldl
    (fun (acc : EncodeAcc) featureName =>
      let featureIdx := header.findIdx? (fun h => decide (h = featureName))
      let featureMeta := (columnMeta.find?
          (fun col => decide (col.name = featureName))).getD defaultMeta
      let featureValues := rows.map (fun row => match featureIdx with
        | some i => row.getD i ""
        | none => "")
      let ei := encodeColumn featureValues featureMeta featureName
      if config.oneHotEncode ∧ featureMeta.inferredType = .categorical
          ∧ ei.2.categoricalMapping.isSome then
        let oh := oneHotEncode ei.1 (ei.2.categoricalMapping.getD [])
        { allFeatureValues := acc.allFeatureValues ++ oh.1
          expandedFeatureNames := acc.expandedFeatureNames
            ++ oh.2.map (fun c => featureName ++ "_" ++ c)
          encodingInfo := acc.encodingInfo
            ++ [⟨ei.2.columnName, ei.2.type,
                some (oh.2.enum.map (fun p => (p.2, p.1))), ei.2.normalizeStats⟩]
          oneHotMapping := acc.oneHotMapping ++ [(featureName, oh.2)] }
      else
        { allFeatureValues := acc.allFeatureValues ++ [ei.1]
          expandedFeatureNames := acc.expandedFeatureNames ++ [featureName]
          encodingInfo := acc.encodingInfo ++ [ei.2]
          oneHotMapping := acc.oneHotMapping })
    ⟨[], [], [], []⟩
  let normValues := if config.normalization then
      (List.range acc.allFeatureValues.length).map (fun i =>
        let vals := acc.allFeatureValues.getD i []
        match acc.encodingInfo[i]? with
        | some info =>
          if info.type = .numeric then
            (Exchron.MathUtils.zScoreNormalize sqrtQ vals).1
          else vals
        | none => vals)
    else acc.allFeatureValues
  let normInfos := if config.normalization then
      acc.encodingInfo.mapIdx (fun i info =>
        if info.type = .numeric then
          let z := Exchron.MathUtils.zScoreNormalize sqrtQ
              (acc.allFeatureValues.getD i [])
          { info with normalizeStats := some (z.2.1, z.2.2) }
        else info)
    else acc.encodingInfo
  let features := ((List.range numSamples).map (fun sampleIdx =>
    normValues.map (fun vals => vals.getD sampleIdx 0))).flatten
  { features := features
    target := encodedTarget
    encodingInfo := normInfos
    oneHotMapping := acc.oneHotMapping
    expandedFeatureNames := acc.expandedFeatureNames }

/-- `DataPreprocessor.createDataSplits`: two-way stratified split, or
three-way when `validationSplitRatio` is set (second stratified split
of the held-out part, mapped back to original indices). -/
def createDataSplits (targetArray : List ℚ) (config : PreprocessingConfig)
    (shuffle : ℕ → List ℕ) : List ℕ × List ℕ × Option (List ℕ) :=
  match config.validationSplitRatio with
  | some testRatio =>
    let valRatio := (1 - config.trainSplitRatio) - testRatio
    let first := Exchron.MathUtils.stratifiedSplit targetArray
        config.trainSplitRatio shuffle
    let valTestIndices := first.2
    let valTestLabels := valTestIndices.map (fun idx => targetArray.getD idx 0)
    let valFromRemaining := valRatio / (valRatio + testRatio)
    let second := Exchron.MathUtils.stratifiedSplit valTestLabels
        valFromRemaining shuffle
    (first.1,
     second.1.map (fun idx => valTestIndices.getD idx 0),
     some (second.2.map (fun idx => valTestIndices.getD idx 0)))
  | none =>
    let s := Exchron.MathUtils.stratifiedSplit targetArray
        config.trainSplitRatio shuffle
    (s.1, s.2, none)

/-- `DataPreprocessor.getTargetType`. -/
def getTargetType (columnMeta : List InferredColumnMeta)
    (targetColumn : String) : TargetType :=
  match columnMeta.find? (fun col => decide (col.name = targetColumn)) with
  | none => .binary
  | some targetMeta =>
    if targetMeta.inferredType = .numeric then .regression
    else
      let numClasses := match targetMeta.uniqueValues with
        | some u => u.length
        | none => 2
      if numClasses ≤ 2 then .binary else .multiclass

/-- `DataPreprocessor.createEncodingMap`. -/
def createEncodingMap (encodingInfo : List EncodingInfo) :
    List (String × List String) :=
  encodingInfo.filterMap (fun info =>
    match info.categoricalMapping with
    | some m => some (info.columnName, m.map (fun p => p.1))
    | none => none)

/-- What `prepareDataset` returns. -/
structure PrepareResult where
  prepared : PreparedDataset
  trainIndices : List ℕ
  valIndices : List ℕ
  testIndices : Option (List ℕ)
  encodingInfo : List EncodingInfo
  removedFeatures : List String
  missingValueStats : List (String × Strategy × ℕ)
  oneHotMapping : List (String × List String)
deriving DecidableEq

/-- `DataPreprocessor.prepareDataset`: filter features, clean, encode,
split, and assemble the `PreparedDataset` with
`rows = features.length / filteredFeatures.length`,
`cols = filteredFeatures.length` and
`featureNames = filteredFeatures` (the unexpanded selection).
Host float printing, `Math.sqrt` and the `Math.random` shuffles are
passed in as `numToString`, `sqrtQ` and `shuffle`. -/
def prepareDataset (rawDataset : RawDataset)
    (columnMeta : List InferredColumnMeta) (config : PreprocessingConfig)
    (numToString : ℚ → String) (sqrtQ : ℚ → ℚ) (shuffle : ℕ → List ℕ) :
    PrepareResult :=
  let ff := filterFeatures rawDataset columnMeta config
  let filteredFeatures := ff.1
  let config' := { config with selectedFeatures := filteredFeatures }
  let cleaned := cleanDataEnhanced rawDataset columnMeta config' numToString
  let enc := encodeDataEnhanced cleaned.1 columnMeta config' sqrtQ
  let splits := createDataSplits enc.target config shuffle
  let numSamples : ℚ := (enc.features.length : ℚ) / (filteredFeatures.length : ℚ)
  { prepared :=
      { features := enc.features
        featureMatrixShape := { rows := numSamples, cols := filteredFeatures.length }
        featureNames := filteredFeatures
        target := enc.target
        targetType := getTargetType columnMeta config.targetColumn
        encodingMap := createEncodingMap enc.encodingInfo }
    trainIndices := splits.1
    valIndices := splits.2.1
    testIndices := splits.2.2
    encodingInfo := enc.encodingInfo
    removedFeatures := ff.2
    missingValueStats := cleaned.2
    oneHotMapping := enc.oneHotMapping }

/-- `DataPreprocessor.preprocessInference(rawData, encodingInfo)`:
numeric `parseFloat || 0` then optional `(x - mean)/std`; boolean
`{true,1,yes} ↦ 1`; categorical `mapping.get(raw) || 0` (unseen
categories fall back to index 0); one value per `EncodingInfo` entry —
no one-hot expansion, no mean imputation. -/
def preprocessInference (rawData : List (String × String))
    (encodingInfo : List EncodingInfo) : List ℚ :=
  encodingInfo.map (fun info =>
    let rawValue := (recordGet rawData info.columnName).getD ""
    if info.type = .numeric then
      let v := (jsParseFloatFinite rawValue).getD 0
      match info.normalizeStats with
      | some ms => (v - ms.1) / ms.2
      | none => v
    else if info.type = .boolean then
      if jsToLower rawValue = "true" ∨ jsToLower rawValue = "1"
          ∨ jsToLower rawValue = "yes" then (1 : ℚ) else 0
    else if info.type = .categorical then
      match info.categoricalMapping with
      | some m => (((recordGet m rawValue).getD 0 : ℕ) : ℚ)
      | none => 0
    else 0)

/-! ### A concrete training run with a one-hot encoded feature

One categorical feature `f` with categories `a`/`b`, boolean target
`t`, two raw rows `(a,1)` and `(b,0)`, one-hot encoding enabled and
normalization disabled.  One-hot expands `f` into the two indicator
columns `f_a`, `f_b`, so the encoded matrix is `2 × 2` row-major:
row 0 is `[1, 0]`, row 1 is `[0, 1]`. -/

def oneHotSampleMeta : List InferredColumnMeta :=
  [⟨"f", 0, .categorical, 0, none, none, none, some ["a", "b"]⟩,
   ⟨"t", 1, .boolean, 0, none, none, none, none⟩]

def oneHotSampleConfig : PreprocessingConfig :=
  ⟨"t", ["f"], false, [], 1/2, none, false, false, true⟩

def oneHotSampleRaw : RawDataset :=
  ⟨"d.csv", "", ["f", "t"], [["a", "1"], ["b", "0"]]⟩

/-- The sample run of `prepareDataset`, with printing, `Math.sqrt` and
the shuffle instantiated arbitrarily (none of them is reached: no
numeric column, no normalization, and the splits are not inspected). -/
def oneHotSampleResult : PrepareResult :=
  prepareDataset oneHotSampleRaw oneHotSampleMeta oneHotSampleConfig
    (fun _ => "0") (fun _ => 0) (fun m => List.range m)

/-- C1: the data-model invariant fails under one-hot encoding.  On the
sample run the encoded matrix really is `[1, 0, 0, 1]` (two rows of
the two indicator columns `f_a`, `f_b`), but `prepareDataset` computes
`featureMatrixShape` from the UNEXPANDED selection: `cols` is `1` (the
one selected feature), `rows` is `features.length / 1 = 4` instead of
the 2 samples, so `target.length = 2 ≠ rows`; `featureNames` stays
`["f"]` even though `encodeDataEnhanced` does compute the expanded
names `["f_a", "f_b"]` — `prepareDataset` discards them. -/
theorem prepareDataset_shape_code_bug :
    oneHotSampleResult.prepared.features = [1, 0, 0, 1] ∧
    oneHotSampleResult.prepared.target = [1, 0] ∧
    oneHotSampleResult.prepared.featureMatrixShape.rows = 4 ∧
    oneHotSampleResult.prepared.featureMatrixShape.cols = 1 ∧
    (oneHotSampleResult.prepared.target.length : ℚ) ≠
      oneHotSampleResult.prepared.featureMatrixShape.rows ∧
    (encodeDataEnhanced (["f", "t"], [["a", "1"], ["b", "0"]])
      oneHotSampleMeta oneHotSampleConfig (fun _ => 0)).expandedFeatureNames
        = ["f_a", "f_b"] ∧
    oneHotSampleResult.prepared.featureNames = ["f"] := by
  refine ⟨by decide, by decide, by decide, by decide, by decide, by decide, by decide⟩

/-- C2: train/serve parity fails under one-hot encoding.  Training
encodes raw row 0 (`f = "a"`) as the indicator vector `[1, 0]` (the
first row of the encoded matrix), but `preprocessInference` on the
identical raw row with the stored `EncodingInfo` list emits one value
per `EncodingInfo` entry — the raw category index `[0]` — with no
one-hot expansion (and no mean imputation), so the training-time
vector is not reproduced. -/
theorem preprocessInference_parity_code_bug :
    oneHotSampleResult.prepared.features.take 2 = [1, 0] ∧
    preprocessInference [("f", "a")] oneHotSampleResult.encodingInfo = [0] ∧
    preprocessInference [("f", "a")] oneHotSampleResult.encodingInfo ≠
      oneHotSampleResult.prepared.features.take 2 := by
  refine ⟨by decide, by decide, by decide⟩

end Exchron.Encoding
